import Mathlib

/-!
Shallow embedding, in Lean 4, of the normalization-and-aggregation pipeline of
the YouthGuide NA scraper backend (files `scrapers/base_scraper.py` and
`scrapers/run_all.py`), together with theorems settling the specification
claims about it.

Modelling conventions:
* Python values that can flow through the pipeline (dictionary values) are
  modelled by the closed union `Value` (None / str / int / bool), which covers
  every shape the claims exercise.
* Python dictionaries are association lists `List (String × Value)`; lookup
  follows Python semantics (the last binding for a key wins, missing keys read
  as `None` under `dict.get`).
* Character-level operations (`str.lower`, `re` whitespace / digit classes,
  `str.strip`) are modelled on the ASCII range plus the explicitly handled
  control and no-break-space characters; exotic Unicode case mappings and
  space characters, which no claim exercises, are elided.
* `datetime.now()` is threaded explicitly: every function that reads the
  current processing date takes a `today : String` argument.
* Wall-clock time in the aggregator is threaded explicitly as data: each
  collector carries the elapsed duration its invocation takes.
-/

namespace YouthGuide

/-- A Python value as it appears in raw / normalized opportunity records:
`None`, a string, an integer, or a boolean. -/
inductive Value where
  | none
  | str (s : String)
  | int (n : Int)
  | bool (b : Bool)
deriving DecidableEq

/-- Python truthiness for `Value` (`bool(v)`): `None`, `""`, `0` and `False`
are falsy, everything else is truthy. -/
def pyTruthy : Value → Bool
  | .none => false
  | .str s => s ≠ ""
  | .int n => n ≠ 0
  | .bool b => b

/-- Python `str(v)` for `Value`. -/
def pyStr : Value → String
  | .none => "None"
  | .str s => s
  | .int n => toString n
  | .bool b => if b then "True" else "False"

/-- The numeric reading shared by Python `int` and `bool` under `==`. -/
def numVal : Value → Int
  | .int n => n
  | .bool b => if b then 1 else 0
  | _ => 0

/-- Python `==` on `Value`: strings compare to strings, `int` and `bool`
compare numerically (`True == 1`), `None` equals only `None`, and every
other cross-type comparison is `False`. -/
def pyEq : Value → Value → Bool
  | .none, .none => true
  | .str s, .str t => s = t
  | .int a, .int b => a = b
  | .int a, .bool b => a = numVal (.bool b)
  | .bool a, .int b => numVal (.bool a) = b
  | .bool a, .bool b => a = b
  | _, _ => false

theorem pyEq_comm (a b : Value) : pyEq a b = pyEq b a := by
  cases a <;> cases b <;> simp [pyEq, numVal, eq_comm]

/-- A Python dictionary with string keys, as an association list.  Raw
collector records may bind a key several times; Python keeps the last
assignment, which is what `dictGet` returns. -/
abbrev Dict := List (String × Value)

/-- The last binding of `k`, if any (`k in d` / the value a Python dict built
from these assignments would hold). -/
def rawLookup : Dict → String → Option Value
  | [], _ => Option.none
  | kv :: rest, k =>
    match rawLookup rest k with
    | some v => some v
    | Option.none => if kv.1 = k then some kv.2 else Option.none

/-- Python `d.get(k)`: the last binding of `k`, or `None` when missing. -/
def dictGet (d : Dict) (k : String) : Value :=
  match rawLookup d k with
  | some v => v
  | Option.none => Value.none

/-- Assignment `d[k] = v` to a key that is already present: the binding is
updated in place, keeping the dictionary's key order. -/
def dictSet (d : Dict) (k : String) (v : Value) : Dict :=
  d.map (fun kv => if kv.1 = k then (k, v) else kv)

/-! ### Character classes (`scrapers/base_scraper.py` text helpers) -/

/-- The whitespace characters recognized by Python's `\s` regex class and
`str.strip` that the pipeline can meet: tab, LF, VT, FF, CR, the FS..US
controls, space, NEL and no-break space.  (Further Unicode space characters
exist in Python but are elided; no claim exercises them.) -/
def isPySpace (c : Char) : Bool :=
  c.toNat = 9 || c.toNat = 10 || c.toNat = 11 || c.toNat = 12 || c.toNat = 13 ||
  c.toNat = 28 || c.toNat = 29 || c.toNat = 30 || c.toNat = 31 || c.toNat = 32 ||
  c.toNat = 133 || c.toNat = 160

/-- ASCII `str.lower`: map `A`–`Z` to `a`–`z`, leave everything else alone
(Python also lowercases non-ASCII letters; elided, see the header). -/
def pyLowerChar (c : Char) : Char :=
  if 65 ≤ c.toNat ∧ c.toNat ≤ 90 then Char.ofNat (c.toNat + 32) else c

theorem char_toNat_ofNat {n : Nat} (h : n.isValidChar) : (Char.ofNat n).toNat = n := by
  unfold Char.ofNat
  rw [dif_pos h]
  rfl

theorem char_eq_of_toNat_eq {a b : Char} (h : a.toNat = b.toNat) : a = b := by
  have := Char.ofNat_toNat a
  rw [h, Char.ofNat_toNat] at this
  exact this.symm

theorem char_eq_iff_toNat {a b : Char} : a = b ↔ a.toNat = b.toNat :=
  ⟨fun h => by rw [h], char_eq_of_toNat_eq⟩

theorem pyLowerChar_toNat (c : Char) :
    (pyLowerChar c).toNat = if 65 ≤ c.toNat ∧ c.toNat ≤ 90 then c.toNat + 32 else c.toNat := by
  unfold pyLowerChar
  split
  · next h => exact char_toNat_ofNat (Or.inl (by omega))
  · rfl

theorem isPySpace_pyLowerChar (c : Char) : isPySpace (pyLowerChar c) = isPySpace c := by
  have h := pyLowerChar_toNat c
  rw [Bool.eq_iff_iff]
  simp only [isPySpace, Bool.or_eq_true, decide_eq_true_eq, h]
  by_cases hc : 65 ≤ c.toNat ∧ c.toNat ≤ 90
  · rw [if_pos hc]
    omega
  · rw [if_neg hc]

/-- `pyLowerChar` fixes every character outside `A`–`Z` and never produces a
character outside `a`–`z` from inside it; hence equality with any fixed
non-letter character is preserved. -/
theorem pyLowerChar_eq_iff (d : Char) (hd : d.toNat < 65 ∨ 90 < d.toNat)
    (hd2 : d.toNat < 97 ∨ 122 < d.toNat) (c : Char) :
    (pyLowerChar c = d) ↔ (c = d) := by
  have h := pyLowerChar_toNat c
  rw [char_eq_iff_toNat, char_eq_iff_toNat, h]
  by_cases hc : 65 ≤ c.toNat ∧ c.toNat ≤ 90
  · rw [if_pos hc]
    omega
  · rw [if_neg hc]

/-! ### `clean_text` (`base_scraper.py` lines 46–72)

`clean_text` is one regex-free pipeline here: tag stripping models
`re.sub(r'<[^>]+>', '', text)`, whitespace collapsing models
`re.sub(r'\s+', ' ', text)`, then `str.strip`, the removal of ` `
(replaced by a space) and of `\r`.  The tag stripper is written with an
explicit fuel argument (the length of the remaining text) so that it is
structurally recursive and evaluates inside the kernel. -/

/-- Split at the first `>`: `some (before, after)` when a `>` occurs. -/
def splitAtGt : List Char → Option (List Char × List Char)
  | [] => Option.none
  | c :: rest =>
    if c = '>' then some ([], rest)
    else (splitAtGt rest).map (fun p => (c :: p.1, p.2))

/-- One pass of `re.sub(r'<[^>]+>', '', text)`: at a `<`, if a later `>`
exists with at least one character in between, the whole `<…>` run is a
match and is dropped, scanning resumes after the `>`; otherwise the `<`
stays.  `fuel` bounds the recursion and is set to the text length. -/
def stripTagsF : Nat → List Char → List Char
  | 0, l => l
  | _ + 1, [] => []
  | fuel + 1, c :: rest =>
    if c = '<' then
      match splitAtGt rest with
      | some (inside, after) =>
        if inside = [] then c :: stripTagsF fuel rest
        else stripTagsF fuel after
      | Option.none => c :: stripTagsF fuel rest
    else c :: stripTagsF fuel rest

def stripTags (l : List Char) : List Char := stripTagsF l.length l

/-- `re.sub(r'\s+', ' ', text)`: every maximal run of whitespace becomes one
space. -/
def collapseSpaces : List Char → List Char
  | [] => []
  | c :: rest =>
    if isPySpace c then
      match rest with
      | [] => [' ']
      | d :: _ => if isPySpace d then collapseSpaces rest else ' ' :: collapseSpaces rest
    else c :: collapseSpaces rest

/-- Python `str.strip()` on a character list. -/
def stripEnds (l : List Char) : List Char :=
  ((l.dropWhile isPySpace).reverse.dropWhile isPySpace).reverse

/-- `text.replace(' ', ' ')`. -/
def replaceNbsp (l : List Char) : List Char :=
  l.map (fun c => if c = ' ' then ' ' else c)

/-- `text.replace('\r', '')`. -/
def removeCr (l : List Char) : List Char :=
  l.filter (fun c => ¬(c = '\r'))

/-- `clean_text` (`base_scraper.py` 46–72): empty and falsy input maps to
`""`; otherwise strip HTML tags, collapse whitespace runs to single spaces,
strip the ends, replace no-break spaces, drop carriage returns. -/
def cleanText (s : String) : String :=
  if s = "" then ""
  else ⟨removeCr (replaceNbsp (stripEnds (collapseSpaces (stripTags s.data))))⟩

/-- ASCII `str.lower` on a whole string. -/
def strLower (s : String) : String := ⟨s.data.map pyLowerChar⟩

/-! Lowercasing commutes with every stage of `clean_text`: tag brackets,
whitespace and the characters `\r`, ` ` are all fixed by `str.lower`, so
cleaning then lowercasing equals lowercasing then cleaning.  This is what
makes the id of `generate_id` (which lowercases *after* cleaning) depend
only on the case-insensitive reading of the raw fields. -/

theorem splitAtGt_map_lower (l : List Char) :
    splitAtGt (l.map pyLowerChar) =
      (splitAtGt l).map (fun p => (p.1.map pyLowerChar, p.2.map pyLowerChar)) := by
  induction l with
  | nil => rfl
  | cons c rest ih =>
    simp only [List.map_cons, splitAtGt]
    simp only [pyLowerChar_eq_iff '>' (by decide) (by decide)]
    by_cases h : c = '>'
    · rw [if_pos h, if_pos h]
      rfl
    · rw [if_neg h, if_neg h, ih]
      cases splitAtGt rest <;> rfl

theorem stripTagsF_map_lower (fuel : Nat) (l : List Char) :
    stripTagsF fuel (l.map pyLowerChar) = (stripTagsF fuel l).map pyLowerChar := by
  induction fuel generalizing l with
  | zero => rfl
  | succ fuel ih =>
    cases l with
    | nil => rfl
    | cons c rest =>
      simp only [List.map_cons, stripTagsF]
      simp only [pyLowerChar_eq_iff '<' (by decide) (by decide)]
      by_cases h : c = '<'
      · rw [if_pos h, if_pos h, splitAtGt_map_lower]
        cases hsp : splitAtGt rest with
        | none => simp [ih]
        | some p =>
          obtain ⟨ins, aft⟩ := p
          by_cases hin : ins = []
          · simp [hin, ih]
          · simp [hin, ih]
      · rw [if_neg h, if_neg h, List.map_cons, ih]

theorem collapseSpaces_map_lower (l : List Char) :
    collapseSpaces (l.map pyLowerChar) = (collapseSpaces l).map pyLowerChar := by
  induction l with
  | nil => rfl
  | cons c rest ih =>
    simp only [List.map_cons, collapseSpaces, isPySpace_pyLowerChar]
    by_cases h : isPySpace c
    · rw [if_pos h, if_pos h]
      cases rest with
      | nil => rfl
      | cons d rest2 =>
        simp only [List.map_cons, isPySpace_pyLowerChar]
        by_cases hd : isPySpace d
        · rw [if_pos hd, if_pos hd]
          exact ih
        · rw [if_neg hd, if_neg hd, List.map_cons, show pyLowerChar ' ' = ' ' from by decide,
            ← ih, List.map_cons]
    · rw [if_neg h, if_neg h, List.map_cons, ih]

theorem filter_map_comm (p : Char → Bool) (hp : ∀ c, p (pyLowerChar c) = p c)
    (l : List Char) :
    List.filter p (l.map pyLowerChar) = (List.filter p l).map pyLowerChar := by
  rw [List.filter_map]
  congr 1
  exact List.filter_congr (fun c _ => hp c)

theorem dropWhile_congr (p q : Char → Bool) (h : ∀ c, p c = q c) (l : List Char) :
    List.dropWhile p l = List.dropWhile q l := by
  induction l with
  | nil => rfl
  | cons c rest ih =>
    simp only [List.dropWhile, h c]
    cases q c
    · rfl
    · exact ih

theorem dropWhile_map_lower (p : Char → Bool) (hp : ∀ c, p (pyLowerChar c) = p c)
    (l : List Char) :
    List.dropWhile p (l.map pyLowerChar) = (List.dropWhile p l).map pyLowerChar := by
  rw [List.dropWhile_map]
  congr 1
  exact dropWhile_congr _ _ (fun c => hp c) l

theorem stripEnds_map_lower (l : List Char) :
    stripEnds (l.map pyLowerChar) = (stripEnds l).map pyLowerChar := by
  unfold stripEnds
  rw [dropWhile_map_lower _ isPySpace_pyLowerChar, ← List.map_reverse,
    dropWhile_map_lower _ isPySpace_pyLowerChar, ← List.map_reverse]

theorem replaceNbsp_map_lower (l : List Char) :
    replaceNbsp (l.map pyLowerChar) = (replaceNbsp l).map pyLowerChar := by
  unfold replaceNbsp
  rw [List.map_map, List.map_map]
  apply List.map_congr_left
  intro c _
  simp only [Function.comp_apply]
  simp only [pyLowerChar_eq_iff ' ' (by decide) (by decide)]
  by_cases h : c = ' '
  · rw [if_pos h, if_pos h]
    decide
  · rw [if_neg h, if_neg h]

theorem removeCr_map_lower (l : List Char) :
    removeCr (l.map pyLowerChar) = (removeCr l).map pyLowerChar := by
  unfold removeCr
  apply filter_map_comm
  intro c
  simp [pyLowerChar_eq_iff '\r' (by decide) (by decide)]

theorem cleanText_strLower (s : String) :
    cleanText (strLower s) = strLower (cleanText s) := by
  unfold cleanText strLower
  by_cases h : s = ""
  · subst h
    rfl
  · have hd : ¬((⟨s.data.map pyLowerChar⟩ : String) = "") := by
      intro hcon
      apply h
      have h2 : s.data.map pyLowerChar = [] := congrArg String.data hcon
      rw [List.map_eq_nil_iff] at h2
      exact String.ext h2
    rw [if_neg hd, if_neg h]
    show String.mk _ = String.mk _
    unfold stripTags
    rw [List.length_map]
    rw [stripTagsF_map_lower, collapseSpaces_map_lower, stripEnds_map_lower,
      replaceNbsp_map_lower, removeCr_map_lower]

/-! ### SHA-256 (`hashlib.sha256`, used by `generate_id`)

A byte-level SHA-256 over `List Nat` (each entry a byte), with 32-bit words
as `Nat` reduced `% 2 ^ 32` where overflow matters.  This is the standard
FIPS 180-4 algorithm, exactly what `hashlib.sha256` computes. -/

def w32 : Nat := 4294967296

def rotr32 (n x : Nat) : Nat := ((x >>> n) ||| (x <<< (32 - n))) % w32

def shaCh (x y z : Nat) : Nat := (x &&& y) ^^^ ((x ^^^ 4294967295) &&& z)

def shaMaj (x y z : Nat) : Nat := (x &&& y) ^^^ (x &&& z) ^^^ (y &&& z)

def shaS0 (x : Nat) : Nat := rotr32 2 x ^^^ rotr32 13 x ^^^ rotr32 22 x

def shaS1 (x : Nat) : Nat := rotr32 6 x ^^^ rotr32 11 x ^^^ rotr32 25 x

def shaG0 (x : Nat) : Nat := rotr32 7 x ^^^ rotr32 18 x ^^^ (x >>> 3)

def shaG1 (x : Nat) : Nat := rotr32 17 x ^^^ rotr32 19 x ^^^ (x >>> 10)

/-- The 64 SHA-256 round constants (FIPS 180-4 §4.2.2, in decimal). -/
def shaK : List Nat :=
  [1116352408, 1899447441, 3049323471, 3921009573, 961987163, 1508970993,
   2453635748, 2870763221, 3624381080, 310598401, 607225278, 1426881987,
   1925078388, 2162078206, 2614888103, 3248222580, 3835390401, 4022224774,
   264347078, 604807628, 770255983, 1249150122, 1555081692, 1996064986,
   2554220882, 2821834349, 2952996808, 3210313671, 3336571891, 3584528711,
   113926993, 338241895, 666307205, 773529912, 1294757372, 1396182291,
   1695183700, 1986661051, 2177026350, 2456956037, 2730485921, 2820302411,
   3259730800, 3345764771, 3516065817, 3600352804, 4094571909, 275423344,
   430227734, 506948616, 659060556, 883997877, 958139571, 1322822218,
   1537002063, 1747873779, 1955562222, 2024104815, 2227730452, 2361852424,
   2428436474, 2756734187, 3204031479, 3329325298]

/-- The working state / hash value: eight 32-bit words. -/
structure Sha8 where
  w0 : Nat
  w1 : Nat
  w2 : Nat
  w3 : Nat
  w4 : Nat
  w5 : Nat
  w6 : Nat
  w7 : Nat

/-- The SHA-256 initial hash value (FIPS 180-4 §5.3.3, in decimal). -/
def shaInit : Sha8 :=
  ⟨1779033703, 3144134277, 1013904242, 2773480762,
   1359893119, 2600822924, 528734635, 1541459225⟩

/-- Extend a 16-word block to the 64-word message schedule (`k` rounds of
appending one word). -/
def extendSchedule : Nat → List Nat → List Nat
  | 0, w => w
  | k + 1, w =>
    let i := w.length
    extendSchedule k
      (w ++ [(shaG1 (w.getD (i - 2) 0) + w.getD (i - 7) 0 +
              shaG0 (w.getD (i - 15) 0) + w.getD (i - 16) 0) % w32])

/-- One compression round: state `(a..h)`, round word `w` and constant `k`. -/
def shaRound (st : Sha8) (wk : Nat × Nat) : Sha8 :=
  let t1 := (st.w7 + shaS1 st.w4 + shaCh st.w4 st.w5 st.w6 + wk.2 + wk.1) % w32
  let t2 := (shaS0 st.w0 + shaMaj st.w0 st.w1 st.w2) % w32
  ⟨(t1 + t2) % w32, st.w0, st.w1, st.w2, (st.w3 + t1) % w32, st.w4, st.w5, st.w6⟩

/-- Compress one 16-word block into the running hash. -/
def compressBlock (h : Sha8) (block : List Nat) : Sha8 :=
  let ws := extendSchedule 48 block
  let st := (ws.zip shaK).foldl shaRound h
  ⟨(h.w0 + st.w0) % w32, (h.w1 + st.w1) % w32, (h.w2 + st.w2) % w32, (h.w3 + st.w3) % w32,
   (h.w4 + st.w4) % w32, (h.w5 + st.w5) % w32, (h.w6 + st.w6) % w32, (h.w7 + st.w7) % w32⟩

/-- The bit length of the message as eight big-endian bytes. -/
def beBytes8 (n : Nat) : List Nat :=
  [n / 72057594037927936 % 256, n / 281474976710656 % 256, n / 1099511627776 % 256,
   n / 4294967296 % 256, n / 16777216 % 256, n / 65536 % 256, n / 256 % 256, n % 256]

/-- FIPS 180-4 padding: `0x80`, zeros to 56 mod 64, then the 64-bit length. -/
def padMessage (msg : List Nat) : List Nat :=
  let zeros := (64 + 55 - msg.length % 64) % 64
  msg ++ [128] ++ List.replicate zeros 0 ++ beBytes8 (msg.length * 8)

/-- Big-endian 4-byte groups as 32-bit words. -/
def toWordsBE : List Nat → List Nat
  | b0 :: b1 :: b2 :: b3 :: rest =>
    (b0 * 16777216 + b1 * 65536 + b2 * 256 + b3) :: toWordsBE rest
  | _ => []

/-- Split a padded byte string into 64-byte blocks (`k` = number of blocks,
making the recursion structural). -/
def toBlocksF : Nat → List Nat → List (List Nat)
  | 0, _ => []
  | k + 1, bytes => bytes.take 64 :: toBlocksF k (bytes.drop 64)

def sha256 (bytes : List Nat) : Sha8 :=
  let padded := padMessage bytes
  (toBlocksF (padded.length / 64) padded).foldl
    (fun h block => compressBlock h (toWordsBE block)) shaInit

/-- The sixteen hex digits. -/
def hexDigits : List Char := "0123456789abcdef".data

def hexCharOf (n : Nat) : Char := hexDigits.getD (n % 16) '0'

/-- A 32-bit word as its eight lowercase hex digits (most significant first),
matching `hashlib`'s `hexdigest`. -/
def wordHex (w : Nat) : List Char :=
  [hexCharOf (w / 268435456), hexCharOf (w / 16777216), hexCharOf (w / 1048576),
   hexCharOf (w / 65536), hexCharOf (w / 4096), hexCharOf (w / 256),
   hexCharOf (w / 16), hexCharOf w]

/-- `hashlib.sha256(bytes).hexdigest()`. -/
def sha256hex (bytes : List Nat) : String :=
  let h := sha256 bytes
  ⟨wordHex h.w0 ++ wordHex h.w1 ++ wordHex h.w2 ++ wordHex h.w3 ++
   wordHex h.w4 ++ wordHex h.w5 ++ wordHex h.w6 ++ wordHex h.w7⟩

theorem sha256hex_length (bytes : List Nat) : (sha256hex bytes).data.length = 64 := by
  simp [sha256hex, wordHex]

theorem hexCharOf_mem (n : Nat) : hexCharOf n ∈ hexDigits := by
  have h16 : n % 16 < 16 := Nat.mod_lt _ (by omega)
  have h : ∀ k, k < 16 → hexDigits.getD k '0' ∈ hexDigits := by decide
  exact h (n % 16) h16

theorem wordHex_mem (w : Nat) : ∀ c ∈ wordHex w, c ∈ hexDigits := by
  intro c hc
  simp only [wordHex, List.mem_cons, List.not_mem_nil, or_false] at hc
  rcases hc with h | h | h | h | h | h | h | h <;> (subst h; exact hexCharOf_mem _)

theorem data_mk (l : List Char) : (String.mk l).data = l := rfl

theorem sha256hex_mem_hexDigits (bytes : List Nat) :
    ∀ c ∈ (sha256hex bytes).data, c ∈ hexDigits := by
  intro c hc
  have h8 : (sha256hex bytes).data =
      wordHex (sha256 bytes).w0 ++ wordHex (sha256 bytes).w1 ++ wordHex (sha256 bytes).w2 ++
      wordHex (sha256 bytes).w3 ++ wordHex (sha256 bytes).w4 ++ wordHex (sha256 bytes).w5 ++
      wordHex (sha256 bytes).w6 ++ wordHex (sha256 bytes).w7 := rfl
  rw [h8] at hc
  rw [List.mem_append] at hc
  rcases hc with hc | h
  rotate_left
  · exact wordHex_mem _ c h
  rw [List.mem_append] at hc
  rcases hc with hc | h
  rotate_left
  · exact wordHex_mem _ c h
  rw [List.mem_append] at hc
  rcases hc with hc | h
  rotate_left
  · exact wordHex_mem _ c h
  rw [List.mem_append] at hc
  rcases hc with hc | h
  rotate_left
  · exact wordHex_mem _ c h
  rw [List.mem_append] at hc
  rcases hc with hc | h
  rotate_left
  · exact wordHex_mem _ c h
  rw [List.mem_append] at hc
  rcases hc with hc | h
  rotate_left
  · exact wordHex_mem _ c h
  rw [List.mem_append] at hc
  rcases hc with h | h
  · exact wordHex_mem _ c h
  · exact wordHex_mem _ c h

/-! ### UTF-8 encoding (`str.encode()`) -/

/-- The UTF-8 bytes of one character. -/
def utf8Bytes (c : Char) : List Nat :=
  let n := c.toNat
  if n < 128 then [n]
  else if n < 2048 then [192 + n / 64, 128 + n % 64]
  else if n < 65536 then [224 + n / 4096, 128 + n / 64 % 64, 128 + n % 64]
  else [240 + n / 262144, 128 + n / 4096 % 64, 128 + n / 64 % 64, 128 + n % 64]

/-- `s.encode()`: the UTF-8 bytes of a string. -/
def strEncode (s : String) : List Nat := (s.data.map utf8Bytes).flatten

/-- `generate_id` (`base_scraper.py` 122–139): the first 16 hex characters of
the SHA-256 of the lowercased `f"{source}_{title}_{url}"`.  The f-string
coerces each field with `str(...)`, so the arguments are `Value`s. -/
def generateId (title source url : Value) : String :=
  let unique := strLower (pyStr source ++ "_" ++ pyStr title ++ "_" ++ pyStr url)
  ⟨(sha256hex (strEncode unique)).data.take 16⟩

theorem generateId_length (title source url : Value) :
    (generateId title source url).data.length = 16 := by
  simp only [generateId, data_mk]
  rw [List.length_take, sha256hex_length]
  decide

theorem generateId_ne_empty (title source url : Value) :
    generateId title source url ≠ "" := by
  intro h
  have h2 := generateId_length title source url
  rw [h] at h2
  simp at h2

/-! ### `normalize_opportunity` (`base_scraper.py` 142–181) -/

/-- The default-filled record `required_fields` (`base_scraper.py` 152–163);
`date_posted` defaults to the processing date `today`. -/
def requiredFields (today : String) : Dict :=
  [("id", .str ""), ("source", .str ""), ("title", .str ""), ("type", .str "Job"),
   ("organization", .str ""), ("location", .str "Namibia"), ("description", .str ""),
   ("url", .str ""), ("date_posted", .str today), ("verified", .bool true)]

/-- The overlay applied to a provided value:
`clean_text(str(value)) if isinstance(value, str) else value` — strings are
cleaned, any other value passes through unchanged. -/
def overlayVal : Value → Value
  | .str s => .str (cleanText s)
  | v => v

/-- One iteration of `for key, value in opp.items(): if key in normalized:
normalized[key] = ...`. -/
def normalizeStep (acc : Dict) (kv : String × Value) : Dict :=
  if (rawLookup acc kv.1).isSome then dictSet acc kv.1 (overlayVal kv.2) else acc

/-- The defaults overlaid with the recognized keys of the raw record
(`normalize_opportunity` before the id backfill). -/
def normalizeBase (today : String) (opp : Dict) : Dict :=
  opp.foldl normalizeStep (requiredFields today)

/-- `normalize_opportunity`: overlay the defaults, then backfill a falsy `id`
with `generate_id(title, source, url)`. -/
def normalizeOpportunity (today : String) (opp : Dict) : Dict :=
  let base := normalizeBase today opp
  if pyTruthy (dictGet base "id") then base
  else dictSet base "id" (.str (generateId (dictGet base "title") (dictGet base "source")
    (dictGet base "url")))

theorem rawLookup_dictSet (d : Dict) (k : String) (v : Value) (k' : String) :
    rawLookup (dictSet d k v) k' =
      if k' = k then (if (rawLookup d k).isSome then some v else Option.none)
      else rawLookup d k' := by
  induction d with
  | nil =>
    by_cases h : k' = k
    · simp [dictSet, rawLookup, h]
    · simp [dictSet, rawLookup, h]
  | cons kv d ih =>
    simp only [dictSet, List.map_cons, rawLookup] at ih ⊢
    rw [ih]
    by_cases hk : k' = k
    · subst hk
      by_cases hkv : kv.1 = k' <;> split_ifs <;> simp_all <;>
        cases hdk : rawLookup d k' <;> simp_all
    · by_cases hkv : kv.1 = k <;> by_cases hkv2 : kv.1 = k' <;>
        split_ifs <;> simp_all <;>
          cases hdk : rawLookup d k' <;> simp_all <;>
            cases hdk2 : rawLookup d k <;> simp_all

/-- `normalize_opportunity`'s overlay loop only ever replaces the value of a
key the accumulator already holds, never adds or drops a key. -/
theorem rawLookup_normalizeStep_isSome (acc : Dict) (kv : String × Value) (k : String) :
    (rawLookup (normalizeStep acc kv) k).isSome = (rawLookup acc k).isSome := by
  unfold normalizeStep
  by_cases h : (rawLookup acc kv.1).isSome
  · rw [if_pos h, rawLookup_dictSet]
    by_cases hk : k = kv.1
    · subst hk
      rw [if_pos rfl, if_pos h, h]
      rfl
    · rw [if_neg hk]
  · rw [if_neg h]

/-- One overlay step, described pointwise. -/
theorem rawLookup_normalizeStep (acc : Dict) (kv : String × Value) (k : String) :
    rawLookup (normalizeStep acc kv) k =
      if kv.1 = k ∧ (rawLookup acc k).isSome then some (overlayVal kv.2)
      else rawLookup acc k := by
  unfold normalizeStep
  by_cases h1 : (rawLookup acc kv.1).isSome
  · rw [if_pos h1, rawLookup_dictSet]
    by_cases hk : k = kv.1
    · subst hk
      rw [if_pos rfl, if_pos h1, if_pos ⟨rfl, h1⟩]
    · rw [if_neg hk, if_neg (fun hc => hk hc.1.symm)]
  · rw [if_neg h1]
    by_cases hk : kv.1 = k
    · subst hk
      rw [if_neg (fun hc => h1 hc.2)]
    · rw [if_neg (fun hc => hk hc.1)]

/-- The overlay loop of `normalize_opportunity`, described pointwise: a
recognized key present in the raw record ends at the overlay of its last
binding, every other key keeps its default. -/
theorem rawLookup_foldl_normalizeStep (opp : Dict) :
    ∀ (acc : Dict) (k : String),
      rawLookup (opp.foldl normalizeStep acc) k =
        match rawLookup opp k with
        | some v => if (rawLookup acc k).isSome then some (overlayVal v) else rawLookup acc k
        | Option.none => rawLookup acc k := by
  induction opp with
  | nil =>
    intro acc k
    simp [rawLookup]
  | cons kv rest ih =>
    intro acc k
    rw [List.foldl_cons, ih]
    have hsome := rawLookup_normalizeStep_isSome acc kv k
    have hstepk := rawLookup_normalizeStep acc kv k
    have hcons : rawLookup (kv :: rest) k =
        match rawLookup rest k with
        | some v => some v
        | Option.none => if kv.1 = k then some kv.2 else Option.none := rfl
    rw [hcons]
    cases hrest : rawLookup rest k with
    | some v =>
      simp only
      rw [hsome, hstepk]
      by_cases hacc : (rawLookup acc k).isSome
      · rw [if_pos hacc, if_pos hacc]
      · rw [if_neg hacc, if_neg hacc, if_neg (fun hc => hacc hc.2)]
    | none =>
      simp only
      rw [hstepk]
      by_cases hkv : kv.1 = k
      · rw [if_pos hkv]
        simp only
        by_cases hacc : (rawLookup acc k).isSome
        · rw [if_pos ⟨hkv, hacc⟩, if_pos hacc]
        · rw [if_neg (fun hc => hacc hc.2), if_neg hacc]
      · rw [if_neg hkv]
        simp only
        rw [if_neg (fun hc => hkv hc.1)]

theorem dictGet_normalizeBase (today : String) (opp : Dict) (k : String)
    (hk : (rawLookup (requiredFields today) k).isSome) :
    dictGet (normalizeBase today opp) k =
      match rawLookup opp k with
      | some v => overlayVal v
      | Option.none => dictGet (requiredFields today) k := by
  unfold normalizeBase dictGet
  rw [rawLookup_foldl_normalizeStep]
  cases rawLookup opp k with
  | none => rfl
  | some v =>
    simp only
    rw [if_pos hk]

theorem rawLookup_normalizeBase_isSome (today : String) (opp : Dict) (k : String) :
    (rawLookup (normalizeBase today opp) k).isSome =
      (rawLookup (requiredFields today) k).isSome := by
  unfold normalizeBase
  rw [rawLookup_foldl_normalizeStep]
  cases rawLookup opp k with
  | none => rfl
  | some v =>
    simp only
    by_cases h : (rawLookup (requiredFields today) k).isSome
    · rw [if_pos h, h]
      rfl
    · rw [if_neg h]

theorem rawLookup_required_id (today : String) :
    rawLookup (requiredFields today) "id" = some (.str "") := rfl

theorem rawLookup_required_title (today : String) :
    rawLookup (requiredFields today) "title" = some (.str "") := rfl

theorem rawLookup_required_source (today : String) :
    rawLookup (requiredFields today) "source" = some (.str "") := rfl

theorem rawLookup_required_url (today : String) :
    rawLookup (requiredFields today) "url" = some (.str "") := rfl

theorem rawLookup_required_date (today : String) :
    rawLookup (requiredFields today) "date_posted" = some (.str today) := rfl

/-- Every record out of `normalize_opportunity` carries a truthy `id`: a
falsy or missing one is backfilled with `generate_id`, whose output has 16
characters. -/
theorem normalize_id_truthy (today : String) (opp : Dict) :
    pyTruthy (dictGet (normalizeOpportunity today opp) "id") := by
  unfold normalizeOpportunity
  by_cases h : pyTruthy (dictGet (normalizeBase today opp) "id")
  · rw [if_pos h]
    exact h
  · rw [if_neg h]
    have hsome : (rawLookup (normalizeBase today opp) "id").isSome := by
      rw [rawLookup_normalizeBase_isSome, rawLookup_required_id]
      rfl
    unfold dictGet
    rw [rawLookup_dictSet, if_pos rfl, if_pos hsome]
    simp only [pyTruthy, ne_eq, decide_eq_true_eq]
    exact generateId_ne_empty _ _ _

/-- Fields other than `id` are untouched by the id backfill. -/
theorem dictGet_normalizeOpportunity_ne (today : String) (opp : Dict) (k : String)
    (hk : k ≠ "id") :
    dictGet (normalizeOpportunity today opp) k = dictGet (normalizeBase today opp) k := by
  unfold normalizeOpportunity
  by_cases h : pyTruthy (dictGet (normalizeBase today opp) "id")
  · rw [if_pos h]
  · rw [if_neg h]
    unfold dictGet
    rw [rawLookup_dictSet, if_neg hk]

/-- The id field of the normalized record when the overlaid `id` is falsy:
exactly `generate_id(title, source, url)` on the overlaid fields. -/
theorem dictGet_normalizeOpportunity_id_falsy (today : String) (opp : Dict)
    (h : ¬pyTruthy (dictGet (normalizeBase today opp) "id")) :
    dictGet (normalizeOpportunity today opp) "id" =
      .str (generateId (dictGet (normalizeBase today opp) "title")
        (dictGet (normalizeBase today opp) "source")
        (dictGet (normalizeBase today opp) "url")) := by
  unfold normalizeOpportunity
  rw [if_neg h]
  have hsome : (rawLookup (normalizeBase today opp) "id").isSome := by
    rw [rawLookup_normalizeBase_isSome, rawLookup_required_id]
    rfl
  unfold dictGet
  rw [rawLookup_dictSet, if_pos rfl, if_pos hsome]

/-! ### `validate_opportunity` (`base_scraper.py` 207–223) -/

/-- Python `str.strip()`. -/
def pyStrip (s : String) : String := ⟨stripEnds s.data⟩

/-- `validate_opportunity`: for each of `title` and `source` in order, reject
when the value is falsy or its `str()` strips to the empty string. -/
def validateOpportunity (opp : Dict) : Bool :=
  (pyTruthy (dictGet opp "title") && (pyStrip (pyStr (dictGet opp "title")) ≠ "")) &&
  (pyTruthy (dictGet opp "source") && (pyStrip (pyStr (dictGet opp "source")) ≠ ""))

/-! ### `remove_duplicates` (`base_scraper.py` 184–204) -/

/-- Python `v in seen_ids` (a set built with `==` semantics). -/
def seenHas (seen : List Value) (v : Value) : Bool := seen.any (fun w => pyEq w v)

/-- The scan of `remove_duplicates`: keep a record iff its `id` is truthy and
not seen, remembering kept ids. -/
def removeDupGo (seen : List Value) : List Dict → List Dict
  | [] => []
  | opp :: rest =>
    let oppId := dictGet opp "id"
    if pyTruthy oppId && !seenHas seen oppId then opp :: removeDupGo (oppId :: seen) rest
    else removeDupGo seen rest

def removeDuplicates (opps : List Dict) : List Dict := removeDupGo [] opps

/-- The same scan with the falsy-id guard removed (used to state that the
guard is unreachable after normalization). -/
def removeDupGoPermissive (seen : List Value) : List Dict → List Dict
  | [] => []
  | opp :: rest =>
    let oppId := dictGet opp "id"
    if !seenHas seen oppId then opp :: removeDupGoPermissive (oppId :: seen) rest
    else removeDupGoPermissive seen rest

/-- Modelled from the spec's words (§4.3), for comparison with
`remove_duplicates`: keep the first occurrence of each distinct truthy id,
discard every later record sharing it, drop falsy-id records. -/
def dedupeFirstOcc : List Dict → List Dict
  | [] => []
  | opp :: rest =>
    if pyTruthy (dictGet opp "id") then
      opp :: dedupeFirstOcc
        (rest.filter (fun o => !pyEq (dictGet o "id") (dictGet opp "id")))
    else dedupeFirstOcc rest
termination_by l => l.length
decreasing_by
  · simp only [List.length_cons]
    have := List.length_filter_le (fun o => !pyEq (dictGet o "id") (dictGet opp "id")) rest
    omega
  · simp only [List.length_cons]
    omega

theorem seenHas_cons (v x : Value) (seen : List Value) :
    seenHas (x :: seen) v = (pyEq x v || seenHas seen v) := by
  simp [seenHas]

theorem removeDupGo_sublist (seen : List Value) (l : List Dict) :
    (removeDupGo seen l).Sublist l := by
  induction l generalizing seen with
  | nil => simp [removeDupGo]
  | cons opp rest ih =>
    unfold removeDupGo
    by_cases h : pyTruthy (dictGet opp "id") && !seenHas seen (dictGet opp "id")
    · rw [if_pos h]
      exact (ih _).cons₂ opp
    · rw [if_neg h]
      exact (ih seen).cons opp

/-- The seen-set scan of `remove_duplicates` computes the first-occurrence
dedup of the records not yet seen. -/
theorem removeDupGo_eq_dedupeFirstOcc (n : Nat) :
    ∀ (l : List Dict), l.length ≤ n → ∀ seen : List Value,
      removeDupGo seen l =
        dedupeFirstOcc (l.filter (fun o => !seenHas seen (dictGet o "id"))) := by
  induction n with
  | zero =>
    intro l hl seen
    have : l = [] := List.eq_nil_of_length_eq_zero (Nat.le_zero.mp hl)
    subst this
    simp [removeDupGo, dedupeFirstOcc]
  | succ n ih =>
    intro l hl seen
    cases l with
    | nil => simp [removeDupGo, dedupeFirstOcc]
    | cons opp rest =>
      simp only [List.length_cons] at hl
      have hrest : rest.length ≤ n := by omega
      unfold removeDupGo
      rw [List.filter_cons]
      by_cases hseen : seenHas seen (dictGet opp "id")
      · have h1 : ¬((pyTruthy (dictGet opp "id") && !seenHas seen (dictGet opp "id")) = true) := by
          simp [hseen]
        have h2 : ¬((!seenHas seen (dictGet opp "id")) = true) := by simp [hseen]
        rw [if_neg h1, if_neg h2]
        exact ih rest hrest seen
      · have h2 : (!seenHas seen (dictGet opp "id")) = true := by simp [hseen]
        rw [if_pos h2]
        by_cases ht : pyTruthy (dictGet opp "id")
        · have h1 : (pyTruthy (dictGet opp "id") && !seenHas seen (dictGet opp "id")) = true := by
            simp [ht, hseen]
          rw [if_pos h1]
          unfold dedupeFirstOcc
          rw [if_pos ht]
          congr 1
          rw [ih rest hrest (dictGet opp "id" :: seen), List.filter_filter]
          congr 1
          apply List.filter_congr
          intro o _
          rw [seenHas_cons, Bool.not_or, pyEq_comm]
        · have h1 : ¬((pyTruthy (dictGet opp "id") && !seenHas seen (dictGet opp "id")) = true) := by
            simp [ht]
          rw [if_neg h1]
          unfold dedupeFirstOcc
          rw [if_neg ht]
          exact ih rest hrest seen

theorem seenHas_nil (v : Value) : seenHas [] v = false := rfl

/-- `remove_duplicates` equals the spec's first-occurrence dedup. -/
theorem removeDuplicates_eq_dedupeFirstOcc (l : List Dict) :
    removeDuplicates l = dedupeFirstOcc l := by
  unfold removeDuplicates
  rw [removeDupGo_eq_dedupeFirstOcc l.length l le_rfl []]
  congr 1
  have : ∀ o : Dict, (!seenHas [] (dictGet o "id")) = true := fun o => rfl
  rw [List.filter_congr (fun o _ => this o)]
  exact List.filter_true _

/-- When the ids are truthy and pairwise-distinct tells a record is the only
holder of its id, the record survives `remove_duplicates`. -/
theorem mem_removeDupGo (m : Dict) :
    ∀ (l : List Dict) (seen : List Value),
      m ∈ l → pyTruthy (dictGet m "id") → ¬seenHas seen (dictGet m "id") →
      (∀ m' ∈ l, pyEq (dictGet m' "id") (dictGet m "id") → m' = m) →
      m ∈ removeDupGo seen l := by
  intro l
  induction l with
  | nil =>
    intro seen h
    exact absurd h (by simp)
  | cons opp rest ih =>
    intro seen hmem ht hseen huniq
    unfold removeDupGo
    by_cases hmo : opp = m
    · subst hmo
      rw [if_pos (by simp [ht, hseen])]
      exact List.mem_cons_self _ _
    · have hmem2 : m ∈ rest := by
        rcases List.mem_cons.mp hmem with heq | h2
        · exact absurd heq.symm hmo
        · exact h2
      have huniq2 : ∀ m' ∈ rest, pyEq (dictGet m' "id") (dictGet m "id") → m' = m :=
        fun m' hm' => huniq m' (List.mem_cons_of_mem _ hm')
      by_cases hc : pyTruthy (dictGet opp "id") && !seenHas seen (dictGet opp "id")
      · rw [if_pos hc]
        apply List.mem_cons_of_mem
        apply ih (dictGet opp "id" :: seen) hmem2 ht _ huniq2
        rw [seenHas_cons]
        simp only [Bool.or_eq_true, not_or]
        constructor
        · intro hpe
          exact hmo (huniq opp (List.mem_cons_self _ _) hpe)
        · exact fun h => hseen h
      · rw [if_neg hc]
        exact ih seen hmem2 ht hseen huniq2

/-! ### `extract_date` (`base_scraper.py` 75–119)

The three regex patterns are modelled as backtracking matchers over
`List Char` (ASCII digit / letter classes, as in the header note), tried at
every start position left to right (`re.search`) and in the source's order;
greedy `\d{1,2}` prefers two digits and backtracks to one. -/

def isDigitC (c : Char) : Bool := 48 ≤ c.toNat && c.toNat ≤ 57

/-- `[a-z]` under `re.IGNORECASE`. -/
def isAlphaCI (c : Char) : Bool :=
  (97 ≤ c.toNat && c.toNat ≤ 122) || (65 ≤ c.toNat && c.toNat ≤ 90)

/-- Greedy `(\d{1,2})` in continuation style: try two digits, backtrack to
one; the continuation receives the captured group and the rest. -/
def matchD12 {α : Type} (k : List Char → List Char → Option α) : List Char → Option α
  | [] => Option.none
  | a :: rest =>
    if isDigitC a then
      match rest with
      | b :: rest2 =>
        if isDigitC b then (k [a, b] rest2).orElse (fun _ => k [a] rest)
        else k [a] rest
      | [] => k [a] []
    else Option.none

/-- The separator class: a slash or a dash. -/
def matchSepSD (l : List Char) : Option (List Char) :=
  match l with
  | c :: rest => if c = '/' || c = '-' then some rest else Option.none
  | [] => Option.none

def matchLit (c : Char) (l : List Char) : Option (List Char) :=
  match l with
  | d :: rest => if d = c then some rest else Option.none
  | [] => Option.none

/-- `(\d{4})`. -/
def matchD4 (l : List Char) : Option (List Char × List Char) :=
  match l with
  | a :: b :: c :: d :: rest =>
    if isDigitC a && isDigitC b && isDigitC c && isDigitC d then some ([a, b, c, d], rest)
    else Option.none
  | _ => Option.none

/-- The first pattern, digits-sep-digits-sep-year with `[/ or -]` separators,
anchored at the start of `l`. -/
def matchPat1At (l : List Char) : Option (List Char × List Char × List Char) :=
  matchD12 (fun g1 r1 =>
    (matchSepSD r1).bind (fun r2 =>
      matchD12 (fun g2 r3 =>
        (matchSepSD r3).bind (fun r4 =>
          (matchD4 r4).map (fun p => (g1, g2, p.1)))) r2)) l

/-- `(\d{4})-(\d{1,2})-(\d{1,2})` anchored at the start of `l`. -/
def matchPat2At (l : List Char) : Option (List Char × List Char × List Char) :=
  (matchD4 l).bind (fun p =>
    (matchLit '-' p.2).bind (fun r2 =>
      matchD12 (fun g2 r3 =>
        (matchLit '-' r3).bind (fun r4 =>
          matchD12 (fun g3 _ => some (p.1, g2, g3)) r4)) r2))

/-- The twelve month alternatives, in the pattern's order. -/
def monthNames : List (List Char) :=
  [['J','a','n'], ['F','e','b'], ['M','a','r'], ['A','p','r'], ['M','a','y'], ['J','u','n'],
   ['J','u','l'], ['A','u','g'], ['S','e','p'], ['O','c','t'], ['N','o','v'], ['D','e','c']]

/-- Case-insensitive literal match; captures the original text characters. -/
def matchCI : List Char → List Char → Option (List Char × List Char)
  | [], l => some ([], l)
  | _ :: _, [] => Option.none
  | p :: ps, c :: cs =>
    if pyLowerChar c = pyLowerChar p then (matchCI ps cs).map (fun q => (c :: q.1, q.2))
    else Option.none

/-- Regex alternation: first alternative that matches wins. -/
def matchAlts : List (List Char) → List Char → Option (List Char × List Char)
  | [], _ => Option.none
  | m :: ms, l => (matchCI m l).orElse (fun _ => matchAlts ms l)

/-- `(Jan|…|Dec)[a-z]* (\d{1,2}),? (\d{4})` (with `re.IGNORECASE`) anchored at
the start of `l`; `[a-z]*` is greedy and followed by a non-letter, so it
consumes exactly the letter run. -/
def matchPat3At (l : List Char) : Option (List Char × List Char × List Char) :=
  (matchAlts monthNames l).bind (fun p =>
    (matchLit ' ' (p.2.dropWhile isAlphaCI)).bind (fun r2 =>
      matchD12 (fun day r3 =>
        (((matchLit ',' r3).bind (matchLit ' ')).orElse (fun _ => matchLit ' ' r3)).bind
          (fun r4 => (matchD4 r4).map (fun q => (p.1, day, q.1)))) r2))

/-- `re.search`: try the anchored matcher at each position, leftmost wins. -/
def searchPat {α : Type} (m : List Char → Option α) : List Char → Option α
  | [] => m []
  | c :: rest => (m (c :: rest)).orElse (fun _ => searchPat m rest)

/-- Python `str.zfill(2)`. -/
def zfill2 (g : List Char) : List Char :=
  if 2 ≤ g.length then g else List.replicate (2 - g.length) '0' ++ g

/-- `f"{m.group(3)}-{m.group(2).zfill(2)}-{m.group(1).zfill(2)}"`. -/
def fmtPat1 (g : List Char × List Char × List Char) : String :=
  ⟨g.2.2 ++ '-' :: zfill2 g.2.1 ++ '-' :: zfill2 g.1⟩

/-- `f"{m.group(1)}-{m.group(2).zfill(2)}-{m.group(3).zfill(2)}"`. -/
def fmtPat2 (g : List Char × List Char × List Char) : String :=
  ⟨g.1 ++ '-' :: zfill2 g.2.1 ++ '-' :: zfill2 g.2.2⟩

/-- The month-abbreviation table of `parse_month_date`. -/
def monthTable : List (String × String) :=
  [("jan", "01"), ("feb", "02"), ("mar", "03"), ("apr", "04"), ("may", "05"), ("jun", "06"),
   ("jul", "07"), ("aug", "08"), ("sep", "09"), ("oct", "10"), ("nov", "11"), ("dec", "12")]

/-- `months.get(month.lower()[:3], '01')`. -/
def monthLookup (m : String) : String :=
  match monthTable.find? (fun kv => kv.1 = m) with
  | some kv => kv.2
  | Option.none => "01"

/-- `parse_month_date` (`base_scraper.py` 111–119). -/
def parseMonthDate (month day year : List Char) : String :=
  ⟨year ++ '-' :: (monthLookup ⟨(month.map pyLowerChar).take 3⟩).data ++ '-' :: zfill2 day⟩

/-- `extract_date` (`base_scraper.py` 75–108): `None` for falsy input, the
three patterns in order with the first match winning, and the current
processing date when none matches. -/
def extractDate (today : String) (rawText : String) : Option String :=
  if rawText = "" then Option.none
  else
    match searchPat matchPat1At rawText.data with
    | some g => some (fmtPat1 g)
    | Option.none =>
      match searchPat matchPat2At rawText.data with
      | some g => some (fmtPat2 g)
      | Option.none =>
        match searchPat matchPat3At rawText.data with
        | some g => some (parseMonthDate g.1 g.2.1 g.2.2)
        | Option.none => some today

/-! ### `aggregate_opportunities` (`run_all.py` 97–130) -/

/-- Python string `<=`: lexicographic on code points. -/
def charsLe : List Char → List Char → Bool
  | [], _ => true
  | _ :: _, [] => false
  | a :: as, b :: bs =>
    if a.toNat < b.toNat then true
    else if a.toNat = b.toNat then charsLe as bs
    else false

def strLe (a b : String) : Bool := charsLe a.data b.data

theorem charsLe_refl (l : List Char) : charsLe l l = true := by
  induction l with
  | nil => rfl
  | cons c rest ih => simp [charsLe, ih]

theorem charsLe_total (a b : List Char) : charsLe a b = true ∨ charsLe b a = true := by
  induction a generalizing b with
  | nil => exact Or.inl rfl
  | cons x xs ih =>
    cases b with
    | nil => exact Or.inr rfl
    | cons y ys =>
      by_cases hlt : x.toNat < y.toNat
      · left
        simp [charsLe, hlt]
      · by_cases heq : x.toNat = y.toNat
        · rcases ih ys with h | h
          · left
            simp [charsLe, heq, h]
          · right
            simp [charsLe, heq.symm, h]
        · right
          have : y.toNat < x.toNat := by omega
          simp [charsLe, this]

theorem charsLe_trans (a b c : List Char) (hab : charsLe a b = true)
    (hbc : charsLe b c = true) : charsLe a c = true := by
  induction a generalizing b c with
  | nil => rfl
  | cons x xs ih =>
    cases b with
    | nil => exact absurd hab (by simp [charsLe])
    | cons y ys =>
      cases c with
      | nil => exact absurd hbc (by simp [charsLe])
      | cons z zs =>
        simp only [charsLe] at hab hbc ⊢
        by_cases h1 : x.toNat < y.toNat
        · by_cases h2 : y.toNat < z.toNat
          · rw [if_pos (show x.toNat < z.toNat by omega)]
          · by_cases h4 : y.toNat = z.toNat
            · rw [if_pos (show x.toNat < z.toNat by omega)]
            · rw [if_neg h2, if_neg h4] at hbc
              exact absurd hbc (by simp)
        · by_cases h3 : x.toNat = y.toNat
          · rw [if_neg h1, if_pos h3] at hab
            by_cases h2 : y.toNat < z.toNat
            · rw [if_pos (show x.toNat < z.toNat by omega)]
            · by_cases h4 : y.toNat = z.toNat
              · rw [if_neg h2, if_pos h4] at hbc
                rw [if_neg (show ¬x.toNat < z.toNat by omega),
                  if_pos (show x.toNat = z.toNat by omega)]
                exact ih ys zs hab hbc
              · rw [if_neg h2, if_neg h4] at hbc
                exact absurd hbc (by simp)
          · rw [if_neg h1, if_neg h3] at hab
            exact absurd hab (by simp)

theorem strLe_refl (a : String) : strLe a a = true := charsLe_refl a.data

theorem strLe_total (a b : String) : strLe a b = true ∨ strLe b a = true :=
  charsLe_total a.data b.data

theorem strLe_trans {a b c : String} (hab : strLe a b = true) (hbc : strLe b c = true) :
    strLe a c = true := charsLe_trans a.data b.data c.data hab hbc

/-- The sort key `x.get('date_posted', '')`.  (Python compares the values
themselves and raises `TypeError` on mixed types; the model reads the string
out, and the theorems restrict to records whose `date_posted` is a string,
the only case in which the Python sort is defined.) -/
def dateKeyStr (r : Dict) : String :=
  match dictGet r "date_posted" with
  | .str s => s
  | _ => ""

/-- Stable insertion for `list.sort(key=..., reverse=True)`: an element is
placed before the first entry whose key is `≤` its own, so equal keys keep
their original relative order. -/
def insertByDateDesc (x : Dict) : List Dict → List Dict
  | [] => [x]
  | y :: ys =>
    if strLe (dateKeyStr y) (dateKeyStr x) then x :: y :: ys
    else y :: insertByDateDesc x ys

/-- `unique.sort(key=lambda x: x.get('date_posted', ''), reverse=True)` — a
stable descending sort by `date_posted`. -/
def sortByDateDesc : List Dict → List Dict
  | [] => []
  | x :: xs => insertByDateDesc x (sortByDateDesc xs)

theorem insertByDateDesc_perm (x : Dict) (l : List Dict) :
    (insertByDateDesc x l).Perm (x :: l) := by
  induction l with
  | nil => exact List.Perm.refl _
  | cons y ys ih =>
    unfold insertByDateDesc
    by_cases h : strLe (dateKeyStr y) (dateKeyStr x)
    · rw [if_pos h]
    · rw [if_neg h]
      exact (ih.cons y).trans (List.Perm.swap x y ys)

theorem sortByDateDesc_perm (l : List Dict) : (sortByDateDesc l).Perm l := by
  induction l with
  | nil => exact List.Perm.refl _
  | cons x xs ih =>
    unfold sortByDateDesc
    exact (insertByDateDesc_perm x (sortByDateDesc xs)).trans (ih.cons x)

theorem mem_insertByDateDesc {z x : Dict} {l : List Dict} :
    z ∈ insertByDateDesc x l ↔ z = x ∨ z ∈ l :=
  ⟨fun h => by simpa using (insertByDateDesc_perm x l).mem_iff.mp h,
   fun h => (insertByDateDesc_perm x l).mem_iff.mpr (by simpa using h)⟩

/-- Inserting keeps a descending list descending. -/
theorem insertByDateDesc_pairwise (x : Dict) (l : List Dict)
    (h : l.Pairwise (fun a b => strLe (dateKeyStr b) (dateKeyStr a) = true)) :
    (insertByDateDesc x l).Pairwise
      (fun a b => strLe (dateKeyStr b) (dateKeyStr a) = true) := by
  induction l with
  | nil => simp [insertByDateDesc]
  | cons y ys ih =>
    unfold insertByDateDesc
    rcases List.pairwise_cons.mp h with ⟨hy, hys⟩
    by_cases hc : strLe (dateKeyStr y) (dateKeyStr x)
    · rw [if_pos hc]
      refine List.pairwise_cons.mpr ⟨?_, h⟩
      intro z hz
      rcases List.mem_cons.mp hz with rfl | hz2
      · exact hc
      · exact strLe_trans (hy z hz2) hc
    · rw [if_neg hc]
      refine List.pairwise_cons.mpr ⟨?_, ih hys⟩
      intro z hz
      rcases mem_insertByDateDesc.mp hz with rfl | hz2
      · rcases strLe_total (dateKeyStr y) (dateKeyStr z) with h1 | h1
        · exact absurd h1 hc
        · exact h1
      · exact hy z hz2

theorem sortByDateDesc_pairwise (l : List Dict) :
    (sortByDateDesc l).Pairwise (fun a b => strLe (dateKeyStr b) (dateKeyStr a) = true) := by
  induction l with
  | nil => simp [sortByDateDesc]
  | cons x xs ih =>
    unfold sortByDateDesc
    exact insertByDateDesc_pairwise x _ ih

/-- Stability, one insertion: records with any fixed key value keep their
relative order. -/
theorem filter_insertByDateDesc (x : Dict) (l : List Dict) (k : String) :
    (insertByDateDesc x l).filter (fun r => dateKeyStr r == k) =
      if dateKeyStr x == k then x :: l.filter (fun r => dateKeyStr r == k)
      else l.filter (fun r => dateKeyStr r == k) := by
  induction l with
  | nil =>
    by_cases h : dateKeyStr x == k
    · rw [if_pos h]
      simp only [insertByDateDesc, List.filter_cons]
      rw [if_pos h]
    · rw [if_neg h]
      simp only [insertByDateDesc, List.filter_cons]
      rw [if_neg h]
  | cons y ys ih =>
    unfold insertByDateDesc
    by_cases hc : strLe (dateKeyStr y) (dateKeyStr x)
    · rw [if_pos hc]
      by_cases hx : dateKeyStr x == k
      · rw [if_pos hx, List.filter_cons, if_pos hx]
      · rw [if_neg hx, List.filter_cons, if_neg hx]
    · rw [if_neg hc]
      by_cases hx : dateKeyStr x == k
      · rw [if_pos hx]
        have hy : ¬(dateKeyStr y == k) := by
          intro hy
          apply hc
          have h1 : dateKeyStr y = k := by simpa using hy
          have h2 : dateKeyStr x = k := by simpa using hx
          rw [h1, h2]
          exact strLe_refl k
        rw [List.filter_cons, if_neg hy, List.filter_cons, if_neg hy, ih, if_pos hx]
      · rw [if_neg hx]
        rw [List.filter_cons, List.filter_cons, ih, if_neg hx]

/-- Stability of the whole sort: for every key value, the subsequence of
records carrying it is unchanged. -/
theorem filter_sortByDateDesc (l : List Dict) (k : String) :
    (sortByDateDesc l).filter (fun r => dateKeyStr r == k) =
      l.filter (fun r => dateKeyStr r == k) := by
  induction l with
  | nil => rfl
  | cons x xs ih =>
    unfold sortByDateDesc
    rw [filter_insertByDateDesc, List.filter_cons]
    by_cases hx : dateKeyStr x == k
    · rw [if_pos hx, if_pos hx, ih]
    · rw [if_neg hx, if_neg hx, ih]

/-- `aggregate_opportunities` (`run_all.py` 97–130): normalize every record,
drop the invalid ones, dedupe, and sort by `date_posted` descending.
(`normalize_opportunity` in the model is total, so the `try/except` around it
never fires.) -/
def aggregateOpportunities (today : String) (allOpps : List Dict) : List Dict :=
  sortByDateDesc (removeDuplicates
    ((allOpps.map (normalizeOpportunity today)).filter validateOpportunity))

/-! ### `run_all.py`: collectors, stats, sources -/

/-- What a collector invocation does, as data: return a list of raw records,
return a non-list value, raise, or lack a `scrape()` function. -/
inductive ScrapeOutcome where
  | ok (items : List Dict)
  | notList
  | raises
  | noScrapeFn
deriving DecidableEq

/-- A collector: its module name, its behaviour, and the wall-clock duration
its invocation takes (time threaded as data, see the header). -/
structure Collector where
  name : String
  outcome : ScrapeOutcome
  elapsed : Nat
deriving DecidableEq

/-- `run_scraper` (`run_all.py` 50–94): the items and recorded duration.  A
raising collector records its elapsed duration; one without `scrape()` or
returning a non-list returns the literal `0`. -/
def runScraper (c : Collector) : List Dict × Nat :=
  match c.outcome with
  | .ok items => (items, c.elapsed)
  | .notList => ([], 0)
  | .raises => ([], c.elapsed)
  | .noScrapeFn => ([], 0)

def isFailureOutcome : ScrapeOutcome → Bool
  | .ok _ => false
  | _ => true

/-- The concatenation `all_opportunities` built by `main`'s loop
(`run_all.py` 172–177). -/
def allOpportunities (cs : List Collector) : List Dict :=
  (cs.map (fun c => (runScraper c).1)).flatten

/-- One entry of `scraper_stats`. -/
structure ScrapeStat where
  count : Nat
  duration : Nat
deriving DecidableEq

/-- `scraper_stats` as built by `main`'s loop (`run_all.py` 178–181): per
collector, the raw item count and the recorded duration. -/
def scraperStats (cs : List Collector) : List (String × ScrapeStat) :=
  cs.map (fun c => (c.name, ⟨(runScraper c).1.length, (runScraper c).2⟩))

/-- Dictionary lookup in `scraper_stats` (last assignment wins). -/
def statsLookup : List (String × ScrapeStat) → String → Option ScrapeStat
  | [], _ => Option.none
  | kv :: rest, k =>
    match statsLookup rest k with
    | some v => some v
    | Option.none => if kv.1 = k then some kv.2 else Option.none

/-- The normalized-and-validated sequence inside `aggregate_opportunities`,
for a whole run. -/
def validNormalized (today : String) (cs : List Collector) : List Dict :=
  ((allOpportunities cs).map (normalizeOpportunity today)).filter validateOpportunity

/-- The final dataset of a run. -/
def finalOpportunities (today : String) (cs : List Collector) : List Dict :=
  aggregateOpportunities today (allOpportunities cs)

/-- The string source names of records (`get_sources`' truthy-source walk;
the model collects the string values, the only ones Python's `sorted` can
mix). -/
def sourceStrings (opps : List Dict) : List String :=
  opps.foldr (fun r acc =>
    match dictGet r "source" with
    | .str s => if s = "" then acc else s :: acc
    | _ => acc) []

/-- Sorted insertion without duplicates (`sorted(list(set(...)))`). -/
def insertAscUnique (x : String) : List String → List String
  | [] => [x]
  | y :: ys =>
    if x = y then y :: ys
    else if strLe x y then x :: y :: ys
    else y :: insertAscUnique x ys

/-- `get_sources` (`run_all.py` 133–147): the sorted set of truthy source
names. -/
def getSources (opps : List Dict) : List String :=
  (sourceStrings opps).foldr insertAscUnique []

theorem mem_insertAscUnique (z x : String) (l : List String) :
    z ∈ insertAscUnique x l ↔ z = x ∨ z ∈ l := by
  induction l with
  | nil => simp [insertAscUnique]
  | cons y ys ih =>
    unfold insertAscUnique
    by_cases h1 : x = y
    · subst h1
      rw [if_pos rfl]
      constructor
      · intro h
        exact Or.inr h
      · intro h
        rcases h with rfl | h
        · exact List.mem_cons_self _ _
        · exact h
    · rw [if_neg h1]
      by_cases h2 : strLe x y
      · rw [if_pos h2]
        simp
      · rw [if_neg h2]
        simp only [List.mem_cons, ih]
        tauto

theorem mem_getSources (s : String) (opps : List Dict) :
    s ∈ getSources opps ↔ s ∈ sourceStrings opps := by
  unfold getSources
  induction sourceStrings opps with
  | nil => simp
  | cons x xs ih =>
    simp only [List.foldr_cons, mem_insertAscUnique, ih, List.mem_cons]

/-! ### `write_json` (`base_scraper.py` 226–266)

A small filesystem model: files as an association list from path to content.
JSON serialization is abstracted as the serialized text (`write_json`'s
atomicity contract does not depend on it).  The I/O operations that can
raise (`os.makedirs`, `tempfile.mkstemp`, the write, `os.replace`) carry an
injected failure flag in `WriteEnv`; `os.path.exists`/`os.remove` in the
cleanup path are modelled as succeeding. -/

abbrev FileSys := List (String × String)

def fsGet : FileSys → String → Option String
  | [], _ => Option.none
  | kv :: rest, k => if kv.1 = k then some kv.2 else fsGet rest k

theorem fsGet_cons (kv : String × String) (rest : FileSys) (k : String) :
    fsGet (kv :: rest) k = if kv.1 = k then some kv.2 else fsGet rest k := rfl

def fsPut (fs : FileSys) (p s : String) : FileSys :=
  (p, s) :: fs.filter (fun q => ¬(q.1 = p))

def fsDrop (fs : FileSys) (p : String) : FileSys :=
  fs.filter (fun q => ¬(q.1 = p))

/-- The text up to and including the last `/` (`posixpath.dirname`'s
`p[:i]`). -/
def dirnameHead (l : List Char) : List Char :=
  (l.reverse.dropWhile (fun c => ¬(c = '/'))).reverse

/-- `str.rstrip('/')`. -/
def rstripSlash (l : List Char) : List Char :=
  (l.reverse.dropWhile (fun c => c = '/')).reverse

/-- `os.path.dirname`: the text before the last slash, with trailing slashes
stripped unless the result is only slashes. -/
def pyDirname (p : String) : String :=
  let head := dirnameHead p.data
  if head.all (fun c => c = '/') then ⟨head⟩ else ⟨rstripSlash head⟩

/-- `os.path.join` for one component. -/
def pyJoin (d base : String) : String :=
  if d = "" then base
  else if d.data.getLast? = some '/' then d ++ base
  else d ++ "/" ++ base

/-- The injected behaviour of the fallible I/O steps of one `write_json`
call, plus the temp-file name `mkstemp` would pick. -/
structure WriteEnv where
  makedirsFails : Bool
  mkstempFails : Bool
  tempName : String
  writeFails : Bool
  replaceFails : Bool

/-- The path of the temporary file: `mkstemp(dir=os.path.dirname(filepath),
suffix='.tmp')`. -/
def tempPathOf (env : WriteEnv) (filepath : String) : String :=
  pyJoin (pyDirname filepath) (env.tempName ++ ".tmp")

/-- `write_json`: create the temp file in the target's directory, write the
serialized text to it, atomically `os.replace` it onto the target; on any
failure, remove the temp file if it was created and return `False`. -/
def writeJson (env : WriteEnv) (serialized filepath : String) (fs : FileSys) :
    Bool × FileSys :=
  if env.makedirsFails then (false, fs)
  else if env.mkstempFails then (false, fs)
  else
    let temp := tempPathOf env filepath
    let fs1 := fsPut fs temp ""
    if env.writeFails then (false, fsDrop fs1 temp)
    else
      let fs2 := fsPut fs1 temp serialized
      if env.replaceFails then (false, fsDrop fs2 temp)
      else (true, fsPut (fsDrop fs2 temp) filepath serialized)

theorem fsGet_fsPut_self (fs : FileSys) (p s : String) : fsGet (fsPut fs p s) p = some s := by
  simp [fsPut, fsGet]

theorem fsGet_fsPut_ne (fs : FileSys) (p s q : String) (h : q ≠ p) :
    fsGet (fsPut fs p s) q = fsGet fs q := by
  unfold fsPut
  rw [show fsGet ((p, s) :: fs.filter (fun r => ¬(r.1 = p))) q =
      if p = q then some s else fsGet (fs.filter (fun r => ¬(r.1 = p))) q from rfl]
  rw [if_neg (fun hc => h hc.symm)]
  induction fs with
  | nil => rfl
  | cons kv rest ih =>
    by_cases hkv : kv.1 = p
    · rw [List.filter_cons, if_neg (by simp [hkv])]
      rw [ih, fsGet_cons, if_neg (hkv ▸ fun hc => h hc.symm : ¬kv.1 = q)]
    · rw [List.filter_cons, if_pos (by simp [hkv])]
      rw [fsGet_cons, fsGet_cons]
      by_cases hq : kv.1 = q
      · rw [if_pos hq, if_pos hq]
      · rw [if_neg hq, if_neg hq, ih]

theorem fsGet_fsDrop_self (fs : FileSys) (p : String) : fsGet (fsDrop fs p) p = Option.none := by
  induction fs with
  | nil => rfl
  | cons kv rest ih =>
    unfold fsDrop at ih ⊢
    by_cases hkv : kv.1 = p
    · rw [List.filter_cons, if_neg (by simp [hkv])]
      exact ih
    · rw [List.filter_cons, if_pos (by simp [hkv])]
      rw [fsGet_cons, if_neg hkv]
      exact ih

theorem fsGet_fsDrop_ne (fs : FileSys) (p q : String) (h : q ≠ p) :
    fsGet (fsDrop fs p) q = fsGet fs q := by
  induction fs with
  | nil => rfl
  | cons kv rest ih =>
    unfold fsDrop at ih ⊢
    by_cases hkv : kv.1 = p
    · rw [List.filter_cons, if_neg (by simp [hkv])]
      rw [ih, fsGet_cons, if_neg (hkv ▸ fun hc => h hc.symm : ¬kv.1 = q)]
    · rw [List.filter_cons, if_pos (by simp [hkv])]
      rw [fsGet_cons, fsGet_cons]
      by_cases hq : kv.1 = q
      · rw [if_pos hq, if_pos hq]
      · rw [if_neg hq, if_neg hq, ih]

theorem dropWhile_append_all {p : Char → Bool} (a b : List Char) (h : ∀ x ∈ a, p x = true) :
    List.dropWhile p (a ++ b) = List.dropWhile p b := by
  induction a with
  | nil => rfl
  | cons x xs ih =>
    rw [List.cons_append, List.dropWhile_cons, if_pos (h x (List.mem_cons_self _ _))]
    exact ih (fun y hy => h y (List.mem_cons_of_mem _ hy))

theorem head_dropWhile_false {p : Char → Bool} (l : List Char) (x : Char) (xs : List Char)
    (h : List.dropWhile p l = x :: xs) : p x = false := by
  induction l with
  | nil => cases h
  | cons c rest ih =>
    rw [List.dropWhile_cons] at h
    by_cases hc : p c
    · rw [if_pos hc] at h
      exact ih h
    · rw [if_neg hc] at h
      cases h
      simpa using hc

theorem mem_of_head_char {l : List Char} {x : Char} (h : l.head? = some x) : x ∈ l := by
  cases l with
  | nil => cases h
  | cons c rest =>
    rw [List.head?_cons, Option.some.injEq] at h
    subst h
    exact List.mem_cons_self _ _

/-- A path without slashes has dirname `""`. -/
theorem pyDirname_noslash (base : String) (hb : ∀ c ∈ base.data, ¬(c = '/')) :
    pyDirname base = "" := by
  unfold pyDirname dirnameHead
  have hdrop : base.data.reverse.dropWhile (fun c => ¬(c = '/')) = [] := by
    rw [List.dropWhile_eq_nil_iff]
    intro x hx
    simp only [decide_eq_true_eq]
    exact hb x (by simpa using hx)
  rw [hdrop]
  rfl

/-- Appending a slash-free component to an all-slash directory: the dirname
of the result is the directory itself. -/
theorem pyDirname_allslash_append (d base : String)
    (hd : d.data.all (fun c => c = '/') = true) (hdne : d.data ≠ [])
    (hb : ∀ c ∈ base.data, ¬(c = '/')) :
    pyDirname (d ++ base) = ⟨d.data⟩ := by
  obtain ⟨xs, hrev⟩ : ∃ xs, d.data.reverse = '/' :: xs := by
    cases hc : d.data.reverse with
    | nil => exact absurd (by simpa using hc) hdne
    | cons y ys =>
      have hy : y = '/' := by
        have hmem : y ∈ d.data := by
          have : y ∈ d.data.reverse := by
            rw [hc]
            exact List.mem_cons_self _ _
          simpa using this
        simpa using List.all_eq_true.mp hd y hmem
      exact ⟨ys, show y :: ys = '/' :: ys by rw [hy]⟩
  have hH : dirnameHead (d ++ base).data = d.data := by
    unfold dirnameHead
    rw [String.data_append, List.reverse_append,
      dropWhile_append_all _ _ (by
        intro y hy
        simp only [decide_eq_true_eq]
        exact hb y (by simpa using hy)),
      hrev, List.dropWhile_cons, if_neg (by simp), ← hrev, List.reverse_reverse]
  unfold pyDirname
  rw [hH, if_pos hd]

/-- Joining with an explicit slash onto a directory whose last character is
not a slash: the dirname of the result is the directory itself. -/
theorem pyDirname_endnoslash_append (d base : String) (x : Char)
    (hlast : d.data.getLast? = some x) (hx : ¬(x = '/'))
    (hb : ∀ c ∈ base.data, ¬(c = '/')) :
    pyDirname (d ++ "/" ++ base) = ⟨d.data⟩ := by
  obtain ⟨ys, hrevc⟩ : ∃ ys, d.data.reverse = x :: ys := by
    have hrev : d.data.reverse.head? = some x := by
      rw [List.head?_reverse]
      exact hlast
    cases hc : d.data.reverse with
    | nil =>
      rw [hc] at hrev
      cases hrev
    | cons y ys =>
      rw [hc, List.head?_cons, Option.some.injEq] at hrev
      exact ⟨ys, by rw [hrev]⟩
  have hdata : (d ++ "/" ++ base).data = (d.data ++ ['/']) ++ base.data := by
    rw [String.data_append, String.data_append]
  have hH : dirnameHead (d ++ "/" ++ base).data = d.data ++ ['/'] := by
    unfold dirnameHead
    rw [hdata, List.reverse_append,
      dropWhile_append_all _ _ (by
        intro y hy
        simp only [decide_eq_true_eq]
        exact hb y (by simpa using hy)),
      List.reverse_append, List.reverse_singleton, List.singleton_append,
      List.dropWhile_cons, if_neg (by simp), List.reverse_cons, List.reverse_reverse]
  unfold pyDirname
  rw [hH]
  have hnall : ¬((d.data ++ ['/']).all (fun c => c = '/') = true) := by
    intro hall
    have hmem : x ∈ d.data ++ ['/'] := by
      apply List.mem_append_left
      have : x ∈ d.data.reverse := by
        rw [hrevc]
        exact List.mem_cons_self _ _
      simpa using this
    exact hx (by simpa using List.all_eq_true.mp hall x hmem)
  rw [if_neg hnall]
  congr 1
  unfold rstripSlash
  rw [List.reverse_append, List.reverse_singleton, List.singleton_append,
    List.dropWhile_cons, if_pos (by simp), hrevc, List.dropWhile_cons,
    if_neg (by simpa using hx), ← hrevc, List.reverse_reverse]

theorem getLast_all_char {p : Char → Bool} (l : List Char) (hl : l ≠ [])
    (hall : l.all p = true) : ∃ x, l.getLast? = some x ∧ p x = true := by
  rw [List.getLast?_eq_head?_reverse]
  cases hc : l.reverse with
  | nil => exact absurd (by simpa using hc) hl
  | cons y ys =>
    refine ⟨y, rfl, ?_⟩
    apply List.all_eq_true.mp hall
    have : y ∈ l.reverse := by
      rw [hc]
      exact List.mem_cons_self _ _
    simpa using this

theorem str_ne_empty_of_data {s : String} (h : s.data ≠ []) : s ≠ "" := by
  intro hcon
  exact h (congrArg String.data hcon)

/-- `mkstemp(dir=os.path.dirname(filepath))` places the temporary file in the
same directory as the target: `os.path.dirname` of the joined temp path is
`os.path.dirname(filepath)` again, whenever the generated file name has no
slash in it. -/
theorem pyDirname_pyJoin (filepath base : String) (hb : ∀ c ∈ base.data, ¬(c = '/')) :
    pyDirname (pyJoin (pyDirname filepath) base) = pyDirname filepath := by
  unfold pyJoin
  by_cases hall : (dirnameHead filepath.data).all (fun c => c = '/') = true
  · have hd : pyDirname filepath = ⟨dirnameHead filepath.data⟩ := by
      unfold pyDirname
      rw [if_pos hall]
    have hddata : (pyDirname filepath).data = dirnameHead filepath.data := by
      rw [hd]
    cases hnil : dirnameHead filepath.data with
    | nil =>
      have hempty : pyDirname filepath = "" := by
        rw [hd, hnil]
      rw [if_pos hempty, hempty]
      exact pyDirname_noslash base hb
    | cons c cs =>
      have hne : ¬(pyDirname filepath = "") :=
        str_ne_empty_of_data (by rw [hddata, hnil]; simp)
      rw [if_neg hne]
      obtain ⟨x, hx, hxp⟩ := getLast_all_char (pyDirname filepath).data
        (by rw [hddata, hnil]; simp) (by rw [hddata]; exact hall)
      have hxs : x = '/' := by simpa using hxp
      rw [if_pos (by rw [hx, hxs])]
      rw [pyDirname_allslash_append (pyDirname filepath) base
        (by rw [hddata]; exact hall) (by rw [hddata, hnil]; simp) hb]
  · have hd : pyDirname filepath = ⟨rstripSlash (dirnameHead filepath.data)⟩ := by
      unfold pyDirname
      rw [if_neg hall]
    have hddata : (pyDirname filepath).data = rstripSlash (dirnameHead filepath.data) := by
      rw [hd]
    obtain ⟨y, hy, hyh⟩ : ∃ y, y ∈ dirnameHead filepath.data ∧
        ¬((fun c => (c = '/' : Bool)) y = true) := by
      by_contra hcon
      push_neg at hcon
      exact hall (List.all_eq_true.mpr fun x hx => by
        by_contra hpx
        exact hpx (hcon x hx))
    have hdropne : (dirnameHead filepath.data).reverse.dropWhile
        (fun c => (c = '/' : Bool)) ≠ [] := by
      intro hcon
      rw [List.dropWhile_eq_nil_iff] at hcon
      exact hyh (hcon y (by simpa using hy))
    have hne : ¬(pyDirname filepath = "") := by
      apply str_ne_empty_of_data
      rw [hddata]
      unfold rstripSlash
      simpa using hdropne
    rw [if_neg hne]
    obtain ⟨z, zs, hz⟩ : ∃ z zs, (dirnameHead filepath.data).reverse.dropWhile
        (fun c => (c = '/' : Bool)) = z :: zs := by
      cases hc : (dirnameHead filepath.data).reverse.dropWhile (fun c => (c = '/' : Bool)) with
      | nil => exact absurd hc hdropne
      | cons z zs => exact ⟨z, zs, rfl⟩
    have hzlast : (pyDirname filepath).data.getLast? = some z := by
      rw [hddata]
      unfold rstripSlash
      rw [List.getLast?_reverse, hz]
      rfl
    have hzq : ¬(z = '/') := by
      have := head_dropWhile_false _ _ _ hz
      simpa using this
    have hcond : ¬((pyDirname filepath).data.getLast? = some '/') := by
      rw [hzlast]
      intro hcon
      exact hzq (by simpa using hcon)
    rw [if_neg hcond]
    rw [pyDirname_endnoslash_append (pyDirname filepath) base z hzlast hzq hb]

/-! ### Case-insensitive field agreement (for the identity claims) -/

/-- Lowercasing a `Value`: strings are lowercased, other values unchanged.
Two values "agree case-insensitively" when their `lowVal`s are equal. -/
def lowVal : Value → Value
  | .str s => .str (strLower s)
  | v => v

def isStrValue : Value → Bool
  | .str _ => true
  | _ => false

theorem strLower_append (a b : String) : strLower (a ++ b) = strLower a ++ strLower b := by
  unfold strLower
  apply String.ext
  simp [String.data_append]

theorem strLower_pyStr_congr {a b : Value} (h : lowVal a = lowVal b) :
    strLower (pyStr a) = strLower (pyStr b) := by
  cases a <;> cases b <;> simp_all [lowVal, pyStr]

theorem lowVal_overlayVal_congr {a b : Value} (h : lowVal a = lowVal b) :
    lowVal (overlayVal a) = lowVal (overlayVal b) := by
  cases a <;> cases b <;> simp_all [lowVal, overlayVal]
  rw [← cleanText_strLower, ← cleanText_strLower, h]

/-- `generate_id` depends only on the lowercased `str()` of its three
arguments. -/
theorem generateId_congr {t1 s1 u1 t2 s2 u2 : Value}
    (ht : strLower (pyStr t1) = strLower (pyStr t2))
    (hs : strLower (pyStr s1) = strLower (pyStr s2))
    (hu : strLower (pyStr u1) = strLower (pyStr u2)) :
    generateId t1 s1 u1 = generateId t2 s2 u2 := by
  unfold generateId
  have heq : strLower (pyStr s1 ++ "_" ++ pyStr t1 ++ "_" ++ pyStr u1) =
      strLower (pyStr s2 ++ "_" ++ pyStr t2 ++ "_" ++ pyStr u2) := by
    simp only [strLower_append, ht, hs, hu]
  rw [heq]

/-- `remove_duplicates` never takes its falsy-id branch on a list whose
records all carry truthy ids. -/
theorem removeDupGo_eq_permissive (l : List Dict)
    (h : ∀ o ∈ l, pyTruthy (dictGet o "id") = true) :
    ∀ seen, removeDupGo seen l = removeDupGoPermissive seen l := by
  induction l with
  | nil =>
    intro seen
    rfl
  | cons opp rest ih =>
    intro seen
    unfold removeDupGo removeDupGoPermissive
    have ht := h opp (List.mem_cons_self _ _)
    have hrest := fun o ho => h o (List.mem_cons_of_mem _ ho)
    by_cases hs : seenHas seen (dictGet opp "id")
    · rw [if_neg (by simp [hs]), if_neg (by simp [hs])]
      exact ih hrest seen
    · rw [if_pos (by simp [ht, hs]), if_pos (by simp [hs])]
      rw [ih hrest]

theorem validate_source_truthy (opp : Dict) (h : validateOpportunity opp = true) :
    pyTruthy (dictGet opp "source") = true := by
  unfold validateOpportunity at h
  simp only [Bool.and_eq_true] at h
  exact h.2.1

theorem mem_sourceStrings (opps : List Dict) (r : Dict) (s : String) (hr : r ∈ opps)
    (hs : dictGet r "source" = .str s) (hne : s ≠ "") : s ∈ sourceStrings opps := by
  induction opps with
  | nil => exact absurd hr (by simp)
  | cons o os ih =>
    unfold sourceStrings
    rw [List.foldr_cons]
    show s ∈ (match dictGet o "source" with
      | .str t => if t = "" then sourceStrings os else t :: sourceStrings os
      | _ => sourceStrings os)
    rcases List.mem_cons.mp hr with rfl | hros
    · rw [hs]
      dsimp only
      rw [if_neg hne]
      exact List.mem_cons_self _ _
    · have hmem := ih hros
      cases dictGet o "source" with
      | str t =>
        dsimp only
        by_cases ht : t = ""
        · rw [if_pos ht]
          exact hmem
        · rw [if_neg ht]
          exact List.mem_cons_of_mem _ hmem
      | none => exact hmem
      | int n => exact hmem
      | bool b => exact hmem

/-! ## Claim theorems -/

/-- C4: `remove_duplicates` is order-preserving: its output is the
subsequence keeping exactly the first occurrence of each distinct id, with
every later record sharing an already-seen id discarded and every falsy-id
record dropped unconditionally — the recursive first-occurrence
characterization `dedupeFirstOcc` written from the spec's words — and the
output is a subsequence of the input. -/
theorem C4_remove_duplicates_first_occurrence (l : List Dict) :
    removeDuplicates l = dedupeFirstOcc l ∧ (removeDuplicates l).Sublist l :=
  ⟨removeDuplicates_eq_dedupeFirstOcc l, removeDupGo_sublist [] l⟩

/-- C5: `validate_opportunity` returns `False` exactly when the `title` or
`source` value is falsy or its `str()` strips to the empty string; for a
string field that condition is exactly "strips to empty" (so blank and empty
coincide); and validity depends on no field other than `title` and
`source`. -/
theorem C5_validate_iff (opp : Dict) :
    (validateOpportunity opp = false ↔
      (¬pyTruthy (dictGet opp "title") = true ∨ pyStrip (pyStr (dictGet opp "title")) = "" ∨
       ¬pyTruthy (dictGet opp "source") = true ∨ pyStrip (pyStr (dictGet opp "source")) = "")) ∧
    (∀ opp2 : Dict, dictGet opp "title" = dictGet opp2 "title" →
      dictGet opp "source" = dictGet opp2 "source" →
      validateOpportunity opp = validateOpportunity opp2) ∧
    (∀ s : String,
      ((¬pyTruthy (Value.str s) = true ∨ pyStrip (pyStr (Value.str s)) = "") ↔ pyStrip s = "")) := by
  refine ⟨?_, ?_, ?_⟩
  · unfold validateOpportunity
    rcases Bool.eq_false_or_eq_true (validateOpportunity opp) with h | h <;>
      constructor <;> intro h2 <;>
        simp_all [validateOpportunity, ne_eq, -Bool.not_eq_true] <;> tauto
  · intro opp2 h1 h2
    unfold validateOpportunity
    rw [h1, h2]
  · intro s
    constructor
    · intro h
      rcases h with h | h
      · have : s = "" := by simpa [pyTruthy] using h
        rw [this]
        rfl
      · exact h
    · intro h
      exact Or.inr h

theorem C5_validate_iff_witness :
    dictGet ([("title", Value.str "T"), ("source", Value.str "S")] : Dict) "title" =
        dictGet ([("title", Value.str "T"), ("source", Value.str "S"),
          ("url", Value.str "u"), ("verified", Value.bool false)] : Dict) "title" ∧
      validateOpportunity [("title", Value.str "T"), ("source", Value.str "S")] =
        validateOpportunity [("title", Value.str "T"), ("source", Value.str "S"),
          ("url", Value.str "u"), ("verified", Value.bool false)] :=
  ⟨by decide,
   (C5_validate_iff [("title", Value.str "T"), ("source", Value.str "S")]).2.1
     [("title", Value.str "T"), ("source", Value.str "S"),
      ("url", Value.str "u"), ("verified", Value.bool false)] (by decide) (by decide)⟩

/-- C7 counterexample: the claim says `extract_date` produces a date string
for *every* input and never an absent result, but for the empty (falsy)
string the code returns `None` before trying any pattern (`if not raw_text:
return None`). -/
theorem C7_counterexample : extractDate "2025-10-12" "" = Option.none := by decide

/-- C7 (amended): for every *non-empty* input text, `extract_date` tries the
slash/dash pattern, then ISO, then "Month DD, YYYY", in order with the first
successful pattern winning, and falls back to the current processing date
when none matches — so on non-empty input it always produces a value. -/
theorem C7_extract_date_total (today raw : String) (h : raw ≠ "") :
    (∃ d, extractDate today raw = some d) ∧
    (∀ g, searchPat matchPat1At raw.data = some g →
      extractDate today raw = some (fmtPat1 g)) ∧
    (searchPat matchPat1At raw.data = Option.none →
      ∀ g, searchPat matchPat2At raw.data = some g →
        extractDate today raw = some (fmtPat2 g)) ∧
    (searchPat matchPat1At raw.data = Option.none →
      searchPat matchPat2At raw.data = Option.none →
      ∀ g, searchPat matchPat3At raw.data = some g →
        extractDate today raw = some (parseMonthDate g.1 g.2.1 g.2.2)) ∧
    (searchPat matchPat1At raw.data = Option.none →
      searchPat matchPat2At raw.data = Option.none →
      searchPat matchPat3At raw.data = Option.none → extractDate today raw = some today) := by
  unfold extractDate
  rw [if_neg h]
  refine ⟨?_, ?_, ?_, ?_, ?_⟩
  · cases h1 : searchPat matchPat1At raw.data
    · cases h2 : searchPat matchPat2At raw.data
      · cases h3 : searchPat matchPat3At raw.data
        · exact ⟨today, rfl⟩
        · exact ⟨_, rfl⟩
      · exact ⟨_, rfl⟩
    · exact ⟨_, rfl⟩
  · intro g hg
    rw [hg]
  · intro h1 g hg
    rw [h1, hg]
  · intro h1 h2 g hg
    rw [h1, h2, hg]
  · intro h1 h2 h3
    rw [h1, h2, h3]

theorem C7_extract_date_total_witness :
    ∃ d, extractDate "2025-10-12" "no date here" = some d :=
  (C7_extract_date_total "2025-10-12" "no date here" (by decide)).1

/-- The record of the C8 counterexample: a supplied (truthy) id and a
non-string `title`. -/
def c8rec : Dict := [("id", Value.str "x"), ("title", Value.int 5)]

/-- C8 counterexample: the claim says a non-string value for a recognized
key is dropped back to the key's default, but `normalize_opportunity` stores
it as-is (`clean_text(str(value)) if isinstance(value, str) else value`): a
`title` of `5` ends up as the integer `5`, not the default `""`, so the
normalized record's fields do not all have canonical types. -/
theorem C8_counterexample :
    dictGet (normalizeOpportunity "2025-10-12" c8rec) "title" = Value.int 5 ∧
    dictGet (requiredFields "2025-10-12") "title" = Value.str "" := by
  constructor
  · decide
  · decide

/-- C8 (amended): a non-string value supplied for a recognized key is stored
unchanged (only strings are cleaned), rather than erroring or being dropped
to the default; for `id`, a non-string value survives exactly when it is
truthy (a falsy one is replaced by the generated id). -/
theorem C8_nonstring_passthrough (today : String) (opp : Dict) (k : String) (v : Value)
    (hk : (rawLookup (requiredFields today) k).isSome = true) (hkid : ¬(k = "id"))
    (hv : rawLookup opp k = some v) (hns : isStrValue v = false) :
    dictGet (normalizeOpportunity today opp) k = v ∧
    (∀ w : Value, rawLookup opp "id" = some w → isStrValue w = false →
      pyTruthy w = true → dictGet (normalizeOpportunity today opp) "id" = w) := by
  have hoverlay : ∀ u : Value, isStrValue u = false → overlayVal u = u := by
    intro u hu
    cases u <;> simp_all [isStrValue, overlayVal]
  constructor
  · rw [dictGet_normalizeOpportunity_ne today opp k hkid,
      dictGet_normalizeBase today opp k hk, hv]
    exact hoverlay v hns
  · intro w hw hwns hwt
    have hbase : dictGet (normalizeBase today opp) "id" = w := by
      rw [dictGet_normalizeBase today opp "id" (by rw [rawLookup_required_id]; rfl), hw]
      exact hoverlay w hwns
    have htr : pyTruthy (dictGet (normalizeBase today opp) "id") = true := by
      rw [hbase]
      exact hwt
    show dictGet (normalizeOpportunity today opp) "id" = w
    unfold normalizeOpportunity
    simp only [htr, if_true]
    exact hbase

theorem C8_nonstring_passthrough_witness :
    dictGet (normalizeOpportunity "2025-10-12"
      [("id", Value.str "x"), ("title", Value.int 5)]) "title" = Value.int 5 :=
  (C8_nonstring_passthrough "2025-10-12" [("id", Value.str "x"), ("title", Value.int 5)]
    "title" (Value.int 5) (by decide) (by decide) (by decide) (by decide)).1

theorem statsLookup_cons (kv : String × ScrapeStat) (rest : List (String × ScrapeStat))
    (k : String) :
    statsLookup (kv :: rest) k =
      match statsLookup rest k with
      | some v => some v
      | Option.none => if kv.1 = k then some kv.2 else Option.none := rfl

theorem scraperStats_cons (d : Collector) (ds : List Collector) :
    scraperStats (d :: ds) =
      (d.name, ⟨(runScraper d).1.length, (runScraper d).2⟩) :: scraperStats ds := rfl

theorem statsLookup_not_mem (k : String) (ds : List Collector)
    (h : k ∉ ds.map Collector.name) : statsLookup (scraperStats ds) k = Option.none := by
  induction ds with
  | nil => rfl
  | cons e es ih =>
    rw [scraperStats_cons, statsLookup_cons,
      ih (fun hmem => h (List.mem_cons_of_mem _ hmem))]
    exact if_neg (fun he => h (by rw [← he]; exact List.mem_cons_self _ _))

theorem statsLookup_scraperStats (cs : List Collector)
    (hnodup : (cs.map Collector.name).Nodup) (c : Collector) (hc : c ∈ cs) :
    statsLookup (scraperStats cs) c.name =
      some ⟨(runScraper c).1.length, (runScraper c).2⟩ := by
  induction cs with
  | nil => exact absurd hc (by simp)
  | cons d ds ih =>
    rw [scraperStats_cons, statsLookup_cons]
    rcases List.mem_cons.mp hc with rfl | hcds
    · rw [statsLookup_not_mem _ _ (by simpa using (List.nodup_cons.mp hnodup).1)]
      exact if_pos rfl
    · rw [ih (List.nodup_cons.mp hnodup).2 hcds]

/-- The collector of the C9 counterexample: its `scrape()` call takes 1 time
unit of wall clock and returns a non-list value. -/
def c9bad : Collector := ⟨"bad", ScrapeOutcome.notList, 1⟩

/-- C9 counterexample: the claim says `scraper_stats` records each
collector's wall-clock duration, but for a collector returning a non-list
`run_scraper` returns the literal `0` (`return [], 0`), not the elapsed
time: here the call elapsed 1 time unit yet the recorded duration is 0. -/
theorem C9_counterexample :
    scraperStats [c9bad] = [("bad", ⟨0, 0⟩)] ∧ c9bad.elapsed = 1 := ⟨rfl, rfl⟩

/-- C9 (amended): `scraper_stats` maps each collector's name to the count of
raw items it returned before normalization, validation and deduplication
(zero for a failed collector) — a function of the collectors alone, hence
independent of how many records survive into the final dataset — together
with its wall-clock duration for completed and raising collectors; a
collector lacking `scrape()` or returning a non-list is recorded with
duration literally `0`. -/
theorem C9_stats (cs : List Collector) (hnodup : (cs.map Collector.name).Nodup) :
    scraperStats cs =
      cs.map (fun c => (c.name, ⟨(runScraper c).1.length, (runScraper c).2⟩)) ∧
    (∀ c ∈ cs, statsLookup (scraperStats cs) c.name =
      some ⟨(runScraper c).1.length, (runScraper c).2⟩) ∧
    (∀ c ∈ cs, ∀ items, c.outcome = .ok items →
      (runScraper c).1.length = items.length ∧ (runScraper c).2 = c.elapsed) ∧
    (∀ c ∈ cs, isFailureOutcome c.outcome = true → (runScraper c).1.length = 0) ∧
    (∀ c ∈ cs, c.outcome = .raises → (runScraper c).2 = c.elapsed) ∧
    (∀ c ∈ cs, c.outcome = .notList ∨ c.outcome = .noScrapeFn → (runScraper c).2 = 0) := by
  refine ⟨rfl, fun c hc => statsLookup_scraperStats cs hnodup c hc, ?_, ?_, ?_, ?_⟩
  · intro c _ items hitems
    rw [show runScraper c = (items, c.elapsed) from by rw [runScraper, hitems]]
    exact ⟨rfl, rfl⟩
  · intro c _ hfail
    cases houtcome : c.outcome <;> rw [runScraper, houtcome] <;>
      first
        | rfl
        | (rw [houtcome] at hfail; exact absurd hfail (by simp [isFailureOutcome]))
  · intro c _ hraises
    rw [runScraper, hraises]
  · intro c _ hor
    rcases hor with h | h <;> rw [runScraper, h]

theorem C9_stats_witness :
    statsLookup (scraperStats [(⟨"good", ScrapeOutcome.ok [], 5⟩ : Collector)]) "good" =
      some ⟨0, 5⟩ :=
  (C9_stats [⟨"good", ScrapeOutcome.ok [], 5⟩] (by decide)).2.1
    ⟨"good", ScrapeOutcome.ok [], 5⟩ (by decide)

/-- C10: every record out of `normalize_opportunity` has a truthy id: when
the raw record supplies no id, a falsy one, or one whose string cleans to
empty, a 16-hex-character id is generated from title, source and url;
consequently the falsy-id drop branch of `remove_duplicates` is unreachable
for a pipeline of normalized records — the scan equals the variant with the
falsy-id guard removed. -/
theorem C10_normalized_id_truthy (today : String) (opp : Dict) (raws : List Dict) :
    pyTruthy (dictGet (normalizeOpportunity today opp) "id") = true ∧
    (¬pyTruthy (dictGet (normalizeBase today opp) "id") = true →
      dictGet (normalizeOpportunity today opp) "id" =
        Value.str (generateId (dictGet (normalizeBase today opp) "title")
          (dictGet (normalizeBase today opp) "source")
          (dictGet (normalizeBase today opp) "url")) ∧
      (generateId (dictGet (normalizeBase today opp) "title")
        (dictGet (normalizeBase today opp) "source")
        (dictGet (normalizeBase today opp) "url")).data.length = 16 ∧
      (∀ c ∈ (generateId (dictGet (normalizeBase today opp) "title")
        (dictGet (normalizeBase today opp) "source")
        (dictGet (normalizeBase today opp) "url")).data, c ∈ hexDigits)) ∧
    removeDuplicates ((raws.map (normalizeOpportunity today)).filter validateOpportunity) =
      removeDupGoPermissive []
        ((raws.map (normalizeOpportunity today)).filter validateOpportunity) := by
  refine ⟨normalize_id_truthy today opp, ?_, ?_⟩
  · intro hfalsy
    refine ⟨dictGet_normalizeOpportunity_id_falsy today opp hfalsy, generateId_length _ _ _, ?_⟩
    intro c hc
    unfold generateId at hc
    rw [data_mk] at hc
    exact sha256hex_mem_hexDigits _ c (List.take_subset _ _ hc)
  · apply removeDupGo_eq_permissive
    intro o ho
    rcases List.mem_filter.mp ho with ⟨homem, _⟩
    rcases List.mem_map.mp homem with ⟨a, _, rfl⟩
    exact normalize_id_truthy today a

theorem C10_normalized_id_truthy_witness :
    dictGet (normalizeOpportunity "2025-10-12" [("title", Value.str "T")]) "id" =
      Value.str (generateId
        (dictGet (normalizeBase "2025-10-12" [("title", Value.str "T")]) "title")
        (dictGet (normalizeBase "2025-10-12" [("title", Value.str "T")]) "source")
        (dictGet (normalizeBase "2025-10-12" [("title", Value.str "T")]) "url")) :=
  ((C10_normalized_id_truthy "2025-10-12" [("title", Value.str "T")] []).2.1 (by decide)).1

/-- C6: the final dataset of the aggregation step is sorted by `date_posted`
in descending lexicographic order, and the sort is stable: it is a
permutation of the post-dedup list in which, for every date value, the
records carrying it appear in exactly the relative order they had after
deduplication.  (Restricted to runs whose post-dedup records hold string
`date_posted` values — the only case where Python's comparison is
defined.) -/
theorem C6_sorted_stable (today : String) (raws : List Dict)
    (hstr : ∀ r ∈ removeDuplicates
        ((raws.map (normalizeOpportunity today)).filter validateOpportunity),
      isStrValue (dictGet r "date_posted") = true) :
    (aggregateOpportunities today raws).Pairwise
      (fun a b => strLe (dateKeyStr b) (dateKeyStr a) = true) ∧
    (∀ k, (aggregateOpportunities today raws).filter (fun r => dateKeyStr r == k) =
      (removeDuplicates ((raws.map (normalizeOpportunity today)).filter
        validateOpportunity)).filter (fun r => dateKeyStr r == k)) ∧
    (aggregateOpportunities today raws).Perm
      (removeDuplicates ((raws.map (normalizeOpportunity today)).filter
        validateOpportunity)) := by
  refine ⟨?_, ?_, ?_⟩
  · exact sortByDateDesc_pairwise _
  · intro k
    exact filter_sortByDateDesc _ k
  · exact sortByDateDesc_perm _

/-- Three raw records with the spec's example dates (ids supplied so the
witness evaluates without hashing). -/
def c6raws : List Dict :=
  [[("id", Value.str "a1"), ("title", Value.str "A"), ("source", Value.str "S"),
    ("date_posted", Value.str "2025-01-01")],
   [("id", Value.str "b2"), ("title", Value.str "B"), ("source", Value.str "S"),
    ("date_posted", Value.str "2025-06-15")],
   [("id", Value.str "c3"), ("title", Value.str "C"), ("source", Value.str "S"),
    ("date_posted", Value.str "2024-12-31")]]

theorem C6_sorted_stable_witness :
    (aggregateOpportunities "2025-10-12" c6raws).Perm
      (removeDuplicates ((c6raws.map (normalizeOpportunity "2025-10-12")).filter
        validateOpportunity)) :=
  (C6_sorted_stable "2025-10-12" c6raws (by decide)).2.2

/-- The records of the C1 counterexample: identical source, title and url,
different supplied ids. -/
def c1r1 : Dict :=
  [("id", Value.str "aa"), ("source", Value.str "S"), ("title", Value.str "T"),
   ("url", Value.str "U")]

def c1r2 : Dict :=
  [("id", Value.str "bb"), ("source", Value.str "S"), ("title", Value.str "T"),
   ("url", Value.str "U")]

/-- C1 counterexample: the claim says two raw records agreeing (here even
exactly) on source, title and url get the same id "even if … any supplied id
field differ[s]" — but `normalize_opportunity` only generates an id when the
supplied one is falsy (`if not normalized['id']`), so records supplying
distinct truthy ids keep them and end with different ids. -/
theorem C1_counterexample :
    dictGet (normalizeOpportunity "2025-10-12" c1r1) "id" ≠
      dictGet (normalizeOpportunity "2025-10-12" c1r2) "id" := by decide

/-- C1 (amended): for every pair of raw records that agree case-insensitively
on source, title and url, *and neither of which supplies an id surviving
cleaning as truthy*, `normalize_opportunity` assigns them the same id, even
when all other fields (and the processing dates) differ; the id is the first
16 hex characters of the SHA-256 of the lower-cased concatenation
`source_title_url` of the cleaned fields. -/
theorem C1_id_pure_function (today1 today2 : String) (r1 r2 : Dict)
    (hid1 : ¬pyTruthy (dictGet (normalizeBase today1 r1) "id") = true)
    (hid2 : ¬pyTruthy (dictGet (normalizeBase today2 r2) "id") = true)
    (hsrc : Option.map lowVal (rawLookup r1 "source") =
      Option.map lowVal (rawLookup r2 "source"))
    (htit : Option.map lowVal (rawLookup r1 "title") =
      Option.map lowVal (rawLookup r2 "title"))
    (hurl : Option.map lowVal (rawLookup r1 "url") =
      Option.map lowVal (rawLookup r2 "url")) :
    dictGet (normalizeOpportunity today1 r1) "id" =
      dictGet (normalizeOpportunity today2 r2) "id" ∧
    dictGet (normalizeOpportunity today1 r1) "id" =
      Value.str ⟨(sha256hex (strEncode (strLower
        (pyStr (dictGet (normalizeBase today1 r1) "source") ++ "_" ++
         pyStr (dictGet (normalizeBase today1 r1) "title") ++ "_" ++
         pyStr (dictGet (normalizeBase today1 r1) "url"))))).data.take 16⟩ := by
  have hfield : ∀ k : String,
      (rawLookup (requiredFields today1) k).isSome = true →
      (rawLookup (requiredFields today2) k).isSome = true →
      dictGet (requiredFields today1) k = dictGet (requiredFields today2) k →
      Option.map lowVal (rawLookup r1 k) = Option.map lowVal (rawLookup r2 k) →
      lowVal (dictGet (normalizeBase today1 r1) k) =
        lowVal (dictGet (normalizeBase today2 r2) k) := by
    intro k h1 h2 hdef hmap
    rw [dictGet_normalizeBase today1 r1 k h1, dictGet_normalizeBase today2 r2 k h2]
    cases hr1 : rawLookup r1 k with
    | none =>
      cases hr2 : rawLookup r2 k with
      | none => exact congrArg lowVal hdef
      | some v2 =>
        rw [hr1, hr2] at hmap
        cases hmap
    | some v1 =>
      cases hr2 : rawLookup r2 k with
      | none =>
        rw [hr1, hr2] at hmap
        cases hmap
      | some v2 =>
        rw [hr1, hr2] at hmap
        simp only [Option.map_some', Option.some.injEq] at hmap
        exact lowVal_overlayVal_congr hmap
  have ht := hfield "title" (by rw [rawLookup_required_title]; rfl)
    (by rw [rawLookup_required_title]; rfl) rfl htit
  have hs := hfield "source" (by rw [rawLookup_required_source]; rfl)
    (by rw [rawLookup_required_source]; rfl) rfl hsrc
  have hu := hfield "url" (by rw [rawLookup_required_url]; rfl)
    (by rw [rawLookup_required_url]; rfl) rfl hurl
  rw [dictGet_normalizeOpportunity_id_falsy today1 r1 hid1,
    dictGet_normalizeOpportunity_id_falsy today2 r2 hid2]
  constructor
  · exact congrArg Value.str (generateId_congr (strLower_pyStr_congr ht)
      (strLower_pyStr_congr hs) (strLower_pyStr_congr hu))
  · rfl

/-- The witness records: same source / title / url up to case, different
other fields, no ids. -/
def c1w1 : Dict :=
  [("source", Value.str "Src"), ("title", Value.str "JOB One"),
   ("url", Value.str "http://X"), ("organization", Value.str "Org A")]

def c1w2 : Dict :=
  [("source", Value.str "sRC"), ("title", Value.str "job ONE"),
   ("url", Value.str "HTTP://x"), ("description", Value.str "other")]

theorem C1_id_pure_function_witness :
    dictGet (normalizeOpportunity "2025-10-12" c1w1) "id" =
      dictGet (normalizeOpportunity "2025-10-11" c1w2) "id" :=
  (C1_id_pure_function "2025-10-12" "2025-10-11" c1w1 c1w2 (by decide) (by decide)
    (by decide) (by decide) (by decide)).1

/-- C2: collector isolation.  For every run: a collector that raises, lacks
`scrape()`, or returns a non-list contributes zero items; the combined raw
sequence decomposes around every collector so no failure erases another
collector's output; every item of a well-behaved collector reaches the
combined raw sequence; and such an item, when its normalization is valid and
no other record in the run's normalized sequence carries its id, reaches the
final dataset, and its (string, hence truthy) source appears in the
`sources` list.  Exceptions are data here (`ScrapeOutcome.raises`), so
nothing propagates by construction — `run_scraper` is total. -/
theorem C2_collector_isolation (today : String) (cs : List Collector) :
    (∀ c ∈ cs, isFailureOutcome c.outcome = true → (runScraper c).1 = []) ∧
    (∀ (pre post : List Collector) (c : Collector), cs = pre ++ c :: post →
      allOpportunities cs =
        allOpportunities pre ++ (runScraper c).1 ++ allOpportunities post) ∧
    (∀ c ∈ cs, ∀ items, c.outcome = .ok items → ∀ x ∈ items,
      x ∈ allOpportunities cs) ∧
    (∀ c ∈ cs, ∀ items, c.outcome = .ok items → ∀ x ∈ items,
      validateOpportunity (normalizeOpportunity today x) = true →
      (∀ m ∈ validNormalized today cs,
        pyEq (dictGet m "id") (dictGet (normalizeOpportunity today x) "id") = true →
        m = normalizeOpportunity today x) →
      normalizeOpportunity today x ∈ finalOpportunities today cs ∧
      (∀ s, dictGet (normalizeOpportunity today x) "source" = Value.str s →
        s ∈ getSources (finalOpportunities today cs))) := by
  have hmemall : ∀ c ∈ cs, ∀ items, c.outcome = .ok items → ∀ x ∈ items,
      x ∈ allOpportunities cs := by
    intro c hc items houtcome x hx
    apply List.mem_flatten.mpr
    refine ⟨(runScraper c).1, List.mem_map.mpr ⟨c, hc, rfl⟩, ?_⟩
    rw [show runScraper c = (items, c.elapsed) from by rw [runScraper, houtcome]]
    exact hx
  refine ⟨?_, ?_, hmemall, ?_⟩
  · intro c _ hfail
    cases houtcome : c.outcome with
    | ok items =>
      rw [houtcome] at hfail
      exact absurd hfail (by simp [isFailureOutcome])
    | notList => rw [show runScraper c = ([], 0) from by rw [runScraper, houtcome]]
    | raises =>
      rw [show runScraper c = ([], c.elapsed) from by rw [runScraper, houtcome]]
    | noScrapeFn => rw [show runScraper c = ([], 0) from by rw [runScraper, houtcome]]
  · intro pre post c hcs
    subst hcs
    simp [allOpportunities, List.map_append]
  · intro c hc items houtcome x hx hvalid huniq
    have hnv : normalizeOpportunity today x ∈ validNormalized today cs :=
      List.mem_filter.mpr
        ⟨List.mem_map.mpr ⟨x, hmemall c hc items houtcome x hx, rfl⟩, hvalid⟩
    have hrd : normalizeOpportunity today x ∈
        removeDuplicates (validNormalized today cs) := by
      unfold removeDuplicates
      exact mem_removeDupGo _ _ [] hnv (normalize_id_truthy today x)
        (by simp [seenHas]) huniq
    have hfinal : normalizeOpportunity today x ∈ finalOpportunities today cs := by
      unfold finalOpportunities aggregateOpportunities
      exact (sortByDateDesc_perm _).mem_iff.mpr hrd
    refine ⟨hfinal, ?_⟩
    intro s hsv
    apply (mem_getSources s _).mpr
    apply mem_sourceStrings _ _ _ hfinal hsv
    have hst := validate_source_truthy _ hvalid
    rw [hsv] at hst
    simpa [pyTruthy] using hst

/-- The witness run: a raising collector followed by a well-behaved one. -/
def c2item : Dict :=
  [("id", Value.str "x1"), ("title", Value.str "T"), ("source", Value.str "S"),
   ("date_posted", Value.str "2025-01-01")]

def c2cs : List Collector :=
  [⟨"bad", ScrapeOutcome.raises, 3⟩, ⟨"good", ScrapeOutcome.ok [c2item], 2⟩]

theorem C2_collector_isolation_witness :
    normalizeOpportunity "2025-10-12" c2item ∈ finalOpportunities "2025-10-12" c2cs ∧
    "S" ∈ getSources (finalOpportunities "2025-10-12" c2cs) := by
  have h := (C2_collector_isolation "2025-10-12" c2cs).2.2.2
    ⟨"good", ScrapeOutcome.ok [c2item], 2⟩ (by decide) [c2item] rfl c2item (by decide)
    (by decide) (by decide)
  exact ⟨h.1, h.2 "S" (by decide)⟩

theorem writeJson_cases (env : WriteEnv) (serialized filepath : String) (fs : FileSys) :
    writeJson env serialized filepath fs =
      if env.makedirsFails then (false, fs)
      else if env.mkstempFails then (false, fs)
      else if env.writeFails then
        (false, fsDrop (fsPut fs (tempPathOf env filepath) "") (tempPathOf env filepath))
      else if env.replaceFails then
        (false, fsDrop (fsPut (fsPut fs (tempPathOf env filepath) "")
          (tempPathOf env filepath) serialized) (tempPathOf env filepath))
      else
        (true, fsPut (fsDrop (fsPut (fsPut fs (tempPathOf env filepath) "")
          (tempPathOf env filepath) serialized) (tempPathOf env filepath))
          filepath serialized) := rfl

/-- C3: `write_json` writes to a temporary file created in the same
directory as the target (its dirname equals the target's) and atomically
replaces the target: whenever the call fails — at `makedirs`, `mkstemp`, the
write, or the replace — it returns `False` with the previous target content
untouched and no temporary file left behind; on success the target holds the
serialized text and the temporary file is gone.  Failures are data
(`WriteEnv`), so nothing escapes the function — it is total. -/
theorem C3_write_json_atomic (env : WriteEnv) (serialized filepath : String) (fs : FileSys)
    (hfresh : fsGet fs (tempPathOf env filepath) = Option.none)
    (hne : ¬(tempPathOf env filepath = filepath))
    (hname : ∀ c ∈ env.tempName.data, ¬(c = '/')) :
    pyDirname (tempPathOf env filepath) = pyDirname filepath ∧
    ((writeJson env serialized filepath fs).1 = false →
      fsGet (writeJson env serialized filepath fs).2 filepath = fsGet fs filepath ∧
      fsGet (writeJson env serialized filepath fs).2 (tempPathOf env filepath) =
        Option.none) ∧
    ((env.makedirsFails || env.mkstempFails || env.writeFails || env.replaceFails) = true →
      (writeJson env serialized filepath fs).1 = false) ∧
    ((writeJson env serialized filepath fs).1 = true →
      fsGet (writeJson env serialized filepath fs).2 filepath = some serialized ∧
      fsGet (writeJson env serialized filepath fs).2 (tempPathOf env filepath) =
        Option.none) := by
  have hnef : ¬(filepath = tempPathOf env filepath) := fun h => hne h.symm
  have hdir : pyDirname (tempPathOf env filepath) = pyDirname filepath := by
    unfold tempPathOf
    apply pyDirname_pyJoin
    intro c hc
    rw [String.data_append, List.mem_append] at hc
    rcases hc with hc | hc
    · exact hname c hc
    · have hdot : ∀ c ∈ (".tmp" : String).data, ¬(c = '/') := by decide
      exact hdot c hc
  refine ⟨hdir, ?_, ?_, ?_⟩
  · intro hf
    rw [writeJson_cases] at hf ⊢
    by_cases h1 : env.makedirsFails = true
    · rw [if_pos h1]
      exact ⟨rfl, hfresh⟩
    · rw [if_neg h1]
      by_cases h2 : env.mkstempFails = true
      · rw [if_pos h2]
        exact ⟨rfl, hfresh⟩
      · rw [if_neg h2]
        by_cases h3 : env.writeFails = true
        · rw [if_pos h3]
          refine ⟨?_, fsGet_fsDrop_self _ _⟩
          rw [fsGet_fsDrop_ne _ _ _ hnef, fsGet_fsPut_ne _ _ _ _ hnef]
        · rw [if_neg h3]
          by_cases h4 : env.replaceFails = true
          · rw [if_pos h4]
            refine ⟨?_, fsGet_fsDrop_self _ _⟩
            rw [fsGet_fsDrop_ne _ _ _ hnef, fsGet_fsPut_ne _ _ _ _ hnef,
              fsGet_fsPut_ne _ _ _ _ hnef]
          · rw [if_neg h1, if_neg h2, if_neg h3, if_neg h4] at hf
            cases hf
  · intro hflag
    rw [writeJson_cases]
    by_cases h1 : env.makedirsFails = true
    · rw [if_pos h1]
    · rw [if_neg h1]
      by_cases h2 : env.mkstempFails = true
      · rw [if_pos h2]
      · rw [if_neg h2]
        by_cases h3 : env.writeFails = true
        · rw [if_pos h3]
        · rw [if_neg h3]
          by_cases h4 : env.replaceFails = true
          · rw [if_pos h4]
          · simp [h1, h2, h3, h4] at hflag
  · intro hok
    rw [writeJson_cases] at hok ⊢
    by_cases h1 : env.makedirsFails = true
    · rw [if_pos h1] at hok
      cases hok
    · rw [if_neg h1] at hok ⊢
      by_cases h2 : env.mkstempFails = true
      · rw [if_pos h2] at hok
        cases hok
      · rw [if_neg h2] at hok ⊢
        by_cases h3 : env.writeFails = true
        · rw [if_pos h3] at hok
          cases hok
        · rw [if_neg h3] at hok ⊢
          by_cases h4 : env.replaceFails = true
          · rw [if_pos h4] at hok
            cases hok
          · rw [if_neg h4]
            refine ⟨fsGet_fsPut_self _ _ _, ?_⟩
            rw [fsGet_fsPut_ne _ _ _ _ hne, fsGet_fsDrop_self]

/-- The witness environment: the write step fails, the previous snapshot at
the target survives and the temp file is cleaned up. -/
def c3env : WriteEnv := ⟨false, false, "t123xyz", true, false⟩

def c3fs : FileSys := [("data/opportunities.json", "OLD")]

theorem C3_write_json_atomic_witness :
    fsGet (writeJson c3env "NEW" "data/opportunities.json" c3fs).2
        "data/opportunities.json" = fsGet c3fs "data/opportunities.json" ∧
    fsGet (writeJson c3env "NEW" "data/opportunities.json" c3fs).2
        (tempPathOf c3env "data/opportunities.json") = Option.none :=
  (C3_write_json_atomic c3env "NEW" "data/opportunities.json" c3fs (by decide) (by decide)
    (by decide)).2.1 (by decide)

end YouthGuide
